import Mathlib

/-!
Verification of the dynamodb-graph-model repository.

Part A embeds the closure-based `Model` factory (src/unnamed/part_000).
That factory captures `node`, `data`, `properties`, `edges`, `maxGSIK` and
`history` as closure variables; the returned public object exposes them through
getters (so later assignments to the closure variables are observable on the
receiver), except `history`, which is exposed as a frozen copy taken at
construction time (`Object.freeze(history.slice())`).

`newModel(override)` rebuilds a model from `Object.assign({}, options,
override)`, i.e. from the ORIGINAL construction options, not from the current
closure variables.  JavaScript array aliasing is modelled explicitly: at
construction the closure `properties`/`edges` alias `options.properties` /
`options.edges` (flags `propsAliased`/`edgesAliased`); `get` rebinds the
closure variables to fresh arrays (clearing the flag), while `remove` mutates
the arrays in place (visible through `options` exactly when still aliased).

The DynamoDB graph store (external `dynamodb-graph` collaborator) is modelled
as a structure of deterministic response functions; each operation also
returns the list of store calls it issued, so call-counting claims can be
stated.  Store values are opaque and modelled as strings.
-/

set_option autoImplicit false

namespace DGM

/-- A row/item as returned by the store driver in `{Item: ...}` / `{Items: [...]}`
responses.  `Typ` models the JS `Type` attribute (`Type` is reserved in Lean). -/
structure MItem where
  Node : Option String := none
  Typ : Option String := none
  Data : Option String := none
  Target : Option String := none
  GSIK : Option String := none
  MaxGSIK : Option Nat := none
deriving DecidableEq, Repr

/-- One raw store response or error, as recorded in a model's history. -/
inductive MEntry where
  | items (xs : List MItem)
  | item (x : MItem)
  | raw (tag : String)
deriving DecidableEq, Repr

/-- Deterministic model of the `dynamodb-graph` driver used by part_000.
`createProperties`, `deleteNode` and `deletePropertyOrEdge` responses are
opaque history entries. -/
structure MDB where
  getNodeData : String → List MItem
  getNodeProperties : String → List MItem
  getNodeEdges : String → List MItem
  getNode : String → List MItem
  createNode : (tenant : String) → (maxGSIK : Nat) → (typ : String) → (data : String) → MItem
  createProperty : (tenant node typ data : String) → (maxGSIK : Nat) → MItem
  createProperties : (tenant : String) → (node : Option String) → (maxGSIK : Nat) →
      (props : List MItem) → MEntry
  createEdge : (tenant : String) → (typ : Option String) → (node : Option String) →
      (target : Option String) → (maxGSIK : Nat) → MItem
  deleteNode : String → MEntry
  deletePropertyOrEdge : (node typ : String) → MEntry

/-- A store call issued by an operation (used to count reads/writes). -/
inductive MCall where
  | getNodeData (n : String)
  | getNodeProperties (n : String)
  | getNodeEdges (n : String)
  | getNode (n : String)
  | createNode (tenant : String) (maxGSIK : Nat) (typ data : String)
  | createProperty (tenant node typ data : String) (maxGSIK : Nat)
  | createProperties (tenant : String) (node : Option String) (maxGSIK : Nat)
      (props : List MItem)
  | createEdge (tenant : String) (typ : Option String) (node : Option String)
      (target : Option String) (maxGSIK : Nat)
  | deleteNode (n : String)
  | deletePropertyOrEdge (node typ : String)
deriving DecidableEq, Repr

/-- The options record a model is constructed from (`Model(options)`). -/
structure MOptions where
  node : Option String := none
  data : Option String := none
  properties : List MItem := []
  edges : List MItem := []
  maxGSIK : Option Nat := none
  history : List MEntry := []
  log : Bool := false
  tenant : String := ""
  typ : String
deriving DecidableEq, Repr

/-- The observable state of one model instance: the construction options
(used by `newModel`), the closure variables (read by the public getters), the
aliasing flags for the two arrays, and the frozen public `history` copy. -/
structure MState where
  options : MOptions
  node : Option String
  data : Option String
  properties : List MItem
  edges : List MItem
  propsAliased : Bool
  edgesAliased : Bool
  maxGSIK : Option Nat
  history : List MEntry
  frozenHistory : List MEntry
deriving DecidableEq, Repr

/-- `Model(options)`: closure variables are initialised from the options and
the public `history` is a frozen copy of the current history array. -/
def mkModel (o : MOptions) : MState :=
  { options := o
    node := o.node
    data := o.data
    properties := o.properties
    edges := o.edges
    propsAliased := true
    edgesAliased := true
    maxGSIK := o.maxGSIK
    history := o.history
    frozenHistory := o.history }

/-- An override object passed to `newModel`; a field of value `some v` models
a property present on the override object with value `v` (where `v` itself may
model JS `undefined` as `none`). -/
structure MOverride where
  node : Option (Option String) := none
  data : Option (Option String) := none
  properties : Option (List MItem) := none
  edges : Option (List MItem) := none
  history : Option (List MEntry) := none

/-- `newModel(override) = Model(Object.assign({}, options, override))`:
the new model is built from the ORIGINAL options, field-wise overridden. -/
def newModel (s : MState) (ov : MOverride) : MState :=
  mkModel
    { s.options with
      node := ov.node.getD s.options.node
      data := ov.data.getD s.options.data
      properties := ov.properties.getD s.options.properties
      edges := ov.edges.getD s.options.edges
      history := ov.history.getD s.options.history }

/-- JS truthiness of an optional string (`if (node) ...`). -/
def truthyS : Option String → Bool
  | none => false
  | some s => !s.isEmpty

/-- Result of one operation: the receiver as observable after the operation
settles (closure variables may have been mutated), the store calls issued,
and the operation's promise outcome. -/
structure MOut where
  receiver : MState
  calls : List MCall
  result : Except String MState
deriving Repr

/-- Extract the model from a fulfilled operation result. -/
def okModel : Except String MState → Option MState
  | .ok m => some m
  | .error _ => none

/-- `get(newNode)` (part_000 lines 117-151): optionally rebinds the closure
`node`, then issues the three concurrent reads and rebinds `data`,
`properties` (with each item's `Node` deleted) and `edges`.  Only the first
argument of the multi-argument `track(...)` call is recorded (JS `track`
declares a single parameter).  The returned model does NOT override `node`. -/
def getOp (s : MState) (newNode : Option String) (db : MDB) : MOut :=
  let s := match newNode with
    | some n => { s with node := some n }
    | none => s
  match s.node with
  | none => ⟨s, [], .error "Node is undefined"⟩
  | some n =>
    let dataResult := db.getNodeData n
    let propertiesResult := db.getNodeProperties n
    let edgesResult := db.getNodeEdges n
    let calls := [MCall.getNodeData n, MCall.getNodeProperties n, MCall.getNodeEdges n]
    match dataResult with
    | [] =>
      -- `dataResult.Items[0].Data` throws; the catch tracks the error and rethrows
      ⟨{ s with history := s.history ++ [MEntry.raw "TypeError"] }, calls, .error "TypeError"⟩
    | item0 :: _ =>
      let d := item0.Data
      let props := propertiesResult.map (fun it => { it with Node := none })
      let tracked := [MEntry.items dataResult]
      let s' := { s with
        data := d, properties := props, edges := edgesResult,
        propsAliased := false, edgesAliased := false,
        history := s.history ++ tracked }
      ⟨s', calls,
        .ok (newModel s'
          { data := some d, properties := some props, edges := some edgesResult,
            history := some tracked })⟩

/-- `set(config)` (part_000 lines 159-182): validates node/type/data, lazily
resolves `maxGSIK` through `getNode` (assigning the CLOSURE variable), then
issues `createProperty` and returns `newModel({history: track.dump()})`. -/
def setOp (s : MState) (cfgTyp cfgData : Option String) (db : MDB) : MOut :=
  match s.node with
  | none => ⟨s, [], .error "Node is undefined"⟩
  | some n =>
    match cfgTyp with
    | none => ⟨s, [], .error "Type is undefined"⟩
    | some t =>
      match cfgData with
      | none => ⟨s, [], .error "Data is undefined"⟩
      | some d =>
        match s.maxGSIK with
        | some g =>
          let it := db.createProperty s.options.tenant n t d g
          let s' := { s with history := s.history ++ [MEntry.item it] }
          ⟨s', [MCall.createProperty s.options.tenant n t d g],
            .ok (newModel s' { history := some [MEntry.item it] })⟩
        | none =>
          match db.getNode n with
          | [] =>
            -- `response.Items[0].MaxGSIK` throws before anything is tracked
            ⟨s, [MCall.getNode n], .error "TypeError"⟩
          | item :: rest =>
            match item.MaxGSIK with
            | none =>
              -- `maxGSIK = undefined` then `throw new Error('Max GSIK is undefined')`
              ⟨s, [MCall.getNode n], .error "Max GSIK is undefined"⟩
            | some g =>
              let resolved := { s with
                maxGSIK := some g,
                history := s.history ++ [MEntry.items (item :: rest)] }
              let it := db.createProperty s.options.tenant n t d g
              let s' := { resolved with history := resolved.history ++ [MEntry.item it] }
              ⟨s', [MCall.getNode n, MCall.createProperty s.options.tenant n t d g],
                .ok (newModel s'
                  { history := some [MEntry.items (item :: rest), MEntry.item it] })⟩

/-- `connect(config)` (part_000 lines 190-224): validates node/type/target,
lazily resolves `maxGSIK` exactly as `set`, then issues `createEdge`; the
returned model overrides `edges` with `edges.concat(result.Item)`.
A model-valued `target` is modelled as already unwrapped to its node id. -/
def connectOp (s : MState) (target cfgTyp : Option String) (db : MDB) : MOut :=
  match s.node with
  | none => ⟨s, [], .error "Node is undefined"⟩
  | some n =>
    match cfgTyp with
    | none => ⟨s, [], .error "Type is undefined"⟩
    | some t =>
      match target with
      | none => ⟨s, [], .error "Target is undefined"⟩
      | some tgt =>
        match s.maxGSIK with
        | some g =>
          let it := db.createEdge s.options.tenant (some t) (some n) (some tgt) g
          let s' := { s with history := s.history ++ [MEntry.item it] }
          ⟨s', [MCall.createEdge s.options.tenant (some t) (some n) (some tgt) g],
            .ok (newModel s'
              { edges := some (s.edges ++ [it]), history := some [MEntry.item it] })⟩
        | none =>
          match db.getNode n with
          | [] => ⟨s, [MCall.getNode n], .error "TypeError"⟩
          | item :: rest =>
            match item.MaxGSIK with
            | none => ⟨s, [MCall.getNode n], .error "Max GSIK is undefined"⟩
            | some g =>
              let resolved := { s with
                maxGSIK := some g,
                history := s.history ++ [MEntry.items (item :: rest)] }
              let it := db.createEdge s.options.tenant (some t) (some n) (some tgt) g
              let s' := { resolved with history := resolved.history ++ [MEntry.item it] }
              ⟨s', [MCall.getNode n,
                    MCall.createEdge s.options.tenant (some t) (some n) (some tgt) g],
                .ok (newModel s'
                  { edges := some (s.edges ++ [it]),
                    history := some [MEntry.items (item :: rest), MEntry.item it] })⟩

/-- `remove(type)` / `disconnect` (part_000 lines 230-261): issues one
`deletePropertyOrEdge`, then — whenever SOME entry of the collection has the
given `Type` — calls `properties.pop(index)` / `edges.pop(index)`.
`Array.prototype.pop` ignores its argument, so the LAST element is removed,
in place (the mutation reaches `options` exactly when the array is still
aliased).  The returned model is `newModel({history: track.dump()})`. -/
def removeOp (s : MState) (typ : Option String) (db : MDB) : MOut :=
  match s.node with
  | none => ⟨s, [], .error "Node is undefined"⟩
  | some n =>
    match typ with
    | none => ⟨s, [], .error "Type is undefined"⟩
    | some t =>
      let ack := db.deletePropertyOrEdge n t
      let props' :=
        if !s.properties.isEmpty && s.properties.any (fun it => it.Typ == some t) then
          s.properties.dropLast
        else s.properties
      let edges' :=
        if !s.edges.isEmpty && s.edges.any (fun it => it.Typ == some t) then
          s.edges.dropLast
        else s.edges
      let s' := { s with
        properties := props'
        edges := edges'
        options := { s.options with
          properties := if s.propsAliased then props' else s.options.properties
          edges := if s.edgesAliased then edges' else s.options.edges }
        history := s.history ++ [ack] }
      ⟨s', [MCall.deletePropertyOrEdge n t],
        .ok (newModel s' { history := some [ack] })⟩

/-- `destroy(newNode)` (part_000 lines 369-386): optionally rebinds the
closure `node`, issues one `deleteNode`, and returns
`emptyModel(track.dump())`, i.e. `newModel` with node/data undefined, empty
properties/edges and history overridden by this operation's entries only. -/
def destroyOp (s : MState) (newNode : Option String) (db : MDB) : MOut :=
  let s := match newNode with
    | some n => { s with node := some n }
    | none => s
  match s.node with
  | none => ⟨s, [], .error "Node is undefined"⟩
  | some n =>
    let ack := db.deleteNode n
    let s' := { s with history := s.history ++ [ack] }
    ⟨s', [MCall.deleteNode n],
      .ok (newModel s'
        { node := some none, data := some none, properties := some [],
          edges := some [], history := some [ack] })⟩

/-- Configuration object accepted by part_000's `create`. -/
structure MCreateCfg where
  data : Option String := none
  properties : List MItem := []
  edges : List MItem := []
deriving DecidableEq, Repr

/-- `create(config)` (part_000 lines 270-363): throws `Node already exists`
when the closure `node` is truthy BEFORE any store call; otherwise issues
`createNode`, appends `CreatedAt`/`UpdatedAt` when `log` is set, then one
batched `createProperties` (when non-empty) and one `createEdge` per config
edge.  Each edge result must carry truthy `Item.Data` (the result is copied
onto the config edge object); the final model overrides node, data,
properties, edges and history.  The receiver's closure variables are all
shadowed by the config destructuring, so only the closure history grows. -/
def createOp (s : MState) (cfg : MCreateCfg) (db : MDB) (now : Nat) : MOut :=
  if truthyS s.node then ⟨s, [], .error "Node already exists"⟩
  else
    match cfg.data with
    | none => ⟨s, [], .error "Data is undefined"⟩
    | some d =>
      match s.maxGSIK with
      | none => ⟨s, [], .error "Max GSIK is undefined"⟩
      | some g =>
        let resp := db.createNode s.options.tenant g s.options.typ d
        let nodeOpt := resp.Node
        let props := cfg.properties ++
          (if s.options.log then
            [{ Typ := some "CreatedAt", Data := some (Nat.repr now) },
             { Typ := some "UpdatedAt", Data := some (Nat.repr now) }]
          else [])
        let propCalls := if props.isEmpty then []
          else [MCall.createProperties s.options.tenant nodeOpt g props]
        let propTracks := if props.isEmpty then []
          else [db.createProperties s.options.tenant nodeOpt g props]
        let edgeCalls := cfg.edges.map (fun e =>
          MCall.createEdge s.options.tenant e.Typ nodeOpt e.Target g)
        let edgeResults := cfg.edges.map (fun e =>
          db.createEdge s.options.tenant e.Typ nodeOpt e.Target g)
        let tracked := MEntry.item resp :: propTracks ++ edgeResults.map MEntry.item
        let calls := MCall.createNode s.options.tenant g s.options.typ d :: propCalls ++ edgeCalls
        if edgeResults.any (fun r => !truthyS r.Data) then
          let s' := { s with history := s.history ++ tracked ++ [MEntry.raw "Data is undefined"] }
          ⟨s', calls, .error "Data is undefined"⟩
        else
          let edges' := List.zipWith (fun (e r : MItem) => { e with Data := r.Data })
            cfg.edges edgeResults
          let s' := { s with history := s.history ++ tracked }
          ⟨s', calls,
            .ok (newModel s'
              { node := some nodeOpt, data := some (some d), properties := some props,
                edges := some edges', history := some tracked })⟩

/-! ### Fixtures and helpers for Part A claims -/

/-- Recognise partition-metadata lookups (`db.getNode`). -/
def isGetNode : MCall → Bool
  | .getNode _ => true
  | _ => false

/-- A small deterministic store: one data row, a stored partition count of 4,
echoing writes, opaque delete acks. -/
def db0 : MDB where
  getNodeData := fun _ => [{ Data := some "new" }]
  getNodeProperties := fun _ => []
  getNodeEdges := fun _ => []
  getNode := fun _ => [{ MaxGSIK := some 4 }]
  createNode := fun _ g t d =>
    { Node := some "generated", Typ := some t, Data := some d, MaxGSIK := some g }
  createProperty := fun _ n t d _ => { Node := some n, Typ := some t, Data := some d }
  createProperties := fun _ _ _ _ => .raw "batchAck"
  createEdge := fun _ t n tg _ => { Node := n, Typ := t, Target := tg, Data := some "E" }
  deleteNode := fun _ => .raw "deleteAck"
  deletePropertyOrEdge := fun _ _ => .raw "removeAck"

/-- A model bound to node `n` holding main data `"old"`. -/
def boundModel : MState := mkModel { typ := "T", node := some "n", data := some "old" }

/-! ### C1 -/

/-- C1 counterexample: the claim "no operation mutates the receiver" is false.
On the bound model `boundModel`, a successful `get()` reassigns the closure
variable behind the receiver's `data` getter: afterwards the receiver reports
`"new"` where it reported `"old"` before the call. -/
theorem get_mutates_receiver_data :
    (getOp boundModel none db0).receiver.data ≠ boundModel.data ∧
    (getOp boundModel none db0).receiver.data = some "new" ∧
    boundModel.data = some "old" := by
  decide

theorem createOp_node_eq (s : MState) (cfg : MCreateCfg) (db : MDB) (now : Nat) :
    (createOp s cfg db now).receiver.node = s.node := by
  unfold createOp
  repeat' (first | split | dsimp only)
  all_goals rfl

theorem createOp_data_eq (s : MState) (cfg : MCreateCfg) (db : MDB) (now : Nat) :
    (createOp s cfg db now).receiver.data = s.data := by
  unfold createOp
  repeat' (first | split | dsimp only)
  all_goals rfl

theorem createOp_properties_eq (s : MState) (cfg : MCreateCfg) (db : MDB) (now : Nat) :
    (createOp s cfg db now).receiver.properties = s.properties := by
  unfold createOp
  repeat' (first | split | dsimp only)
  all_goals rfl

theorem createOp_edges_eq (s : MState) (cfg : MCreateCfg) (db : MDB) (now : Nat) :
    (createOp s cfg db now).receiver.edges = s.edges := by
  unfold createOp
  repeat' (first | split | dsimp only)
  all_goals rfl

theorem createOp_maxGSIK_eq (s : MState) (cfg : MCreateCfg) (db : MDB) (now : Nat) :
    (createOp s cfg db now).receiver.maxGSIK = s.maxGSIK := by
  unfold createOp
  repeat' (first | split | dsimp only)
  all_goals rfl

theorem createOp_frozen_eq (s : MState) (cfg : MCreateCfg) (db : MDB) (now : Nat) :
    (createOp s cfg db now).receiver.frozenHistory = s.frozenHistory := by
  unfold createOp
  repeat' (first | split | dsimp only)
  all_goals rfl

theorem getOp_frozen_eq (s : MState) (newNode : Option String) (db : MDB) :
    (getOp s newNode db).receiver.frozenHistory = s.frozenHistory := by
  unfold getOp
  repeat' (first | split | dsimp only)
  all_goals rfl

theorem setOp_frozen_eq (s : MState) (ty dt : Option String) (db : MDB) :
    (setOp s ty dt db).receiver.frozenHistory = s.frozenHistory := by
  unfold setOp
  repeat' (first | split | dsimp only)
  all_goals rfl

theorem connectOp_frozen_eq (s : MState) (target ty : Option String) (db : MDB) :
    (connectOp s target ty db).receiver.frozenHistory = s.frozenHistory := by
  unfold connectOp
  repeat' (first | split | dsimp only)
  all_goals rfl

theorem removeOp_frozen_eq (s : MState) (ty : Option String) (db : MDB) :
    (removeOp s ty db).receiver.frozenHistory = s.frozenHistory := by
  unfold removeOp
  repeat' (first | split | dsimp only)
  all_goals rfl

theorem destroyOp_frozen_eq (s : MState) (newNode : Option String) (db : MDB) :
    (destroyOp s newNode db).receiver.frozenHistory = s.frozenHistory := by
  unfold destroyOp
  repeat' (first | split | dsimp only)
  all_goals rfl

/-- C1 amended: `create` never mutates the receiver's observable fields
(node, data, properties, edges, maxGSIK), and the public `history` field —
a frozen copy taken at construction — is left unchanged by every operation
(get, set, connect, remove, create, destroy); the other operations may mutate
the remaining receiver fields through the closure variables. -/
theorem create_frame_and_frozen_history (s : MState) (cfg : MCreateCfg) (db : MDB)
    (now : Nat) (newNode target ty dt : Option String) :
    ((createOp s cfg db now).receiver.node = s.node ∧
     (createOp s cfg db now).receiver.data = s.data ∧
     (createOp s cfg db now).receiver.properties = s.properties ∧
     (createOp s cfg db now).receiver.edges = s.edges ∧
     (createOp s cfg db now).receiver.maxGSIK = s.maxGSIK ∧
     (createOp s cfg db now).receiver.frozenHistory = s.frozenHistory) ∧
    (getOp s newNode db).receiver.frozenHistory = s.frozenHistory ∧
    (setOp s ty dt db).receiver.frozenHistory = s.frozenHistory ∧
    (connectOp s target ty db).receiver.frozenHistory = s.frozenHistory ∧
    (removeOp s ty db).receiver.frozenHistory = s.frozenHistory ∧
    (destroyOp s newNode db).receiver.frozenHistory = s.frozenHistory :=
  ⟨⟨createOp_node_eq s cfg db now, createOp_data_eq s cfg db now,
    createOp_properties_eq s cfg db now, createOp_edges_eq s cfg db now,
    createOp_maxGSIK_eq s cfg db now, createOp_frozen_eq s cfg db now⟩,
   getOp_frozen_eq s newNode db, setOp_frozen_eq s ty dt db,
   connectOp_frozen_eq s target ty db, removeOp_frozen_eq s ty db,
   destroyOp_frozen_eq s newNode db⟩

/-! ### C2 -/

/-- A bound model constructed without a `maxGSIK` (the lazy-resolution
starting point for both `set` and `connect`). -/
def unresolvedModel : MState := mkModel { typ := "T", node := some "n" }

/-- C2 counterexample: partition resolution is NOT performed at most once per
chain, neither through `set` nor through `connect`.  Starting from a bound
model with undefined `maxGSIK`, the first `set` (resp. `connect`) issues one
`getNode` metadata read, but the model it returns (rebuilt from the original
options) again has `maxGSIK` undefined, so a second `set` (resp. `connect`)
on that returned model issues ANOTHER `getNode` read. -/
theorem chained_set_repeats_partition_lookup :
    ((setOp unresolvedModel (some "P") (some "D") db0).calls.countP isGetNode = 1 ∧
     ((okModel (setOp unresolvedModel
        (some "P") (some "D") db0).result).getD boundModel).maxGSIK = none ∧
     (setOp ((okModel (setOp unresolvedModel
        (some "P") (some "D") db0).result).getD boundModel)
        (some "P") (some "D") db0).calls.countP isGetNode = 1) ∧
    ((connectOp unresolvedModel (some "m") (some "E") db0).calls.countP isGetNode = 1 ∧
     ((okModel (connectOp unresolvedModel
        (some "m") (some "E") db0).result).getD boundModel).maxGSIK = none ∧
     (connectOp ((okModel (connectOp unresolvedModel
        (some "m") (some "E") db0).result).getD boundModel)
        (some "m") (some "E") db0).calls.countP isGetNode = 1) := by
  decide

/-- C2 amended: when `maxGSIK` is already known, `set` and `connect` issue no
metadata read and only their single write; when it is undefined, each issues
exactly one `getNode` metadata read and caches the resolved value onto the
RECEIVER (by closure mutation) — but the model either returns is rebuilt from
the original options, so the returned model's `maxGSIK` reverts to the
construction value and a chained operation resolves again. -/
theorem partition_resolution_cached_on_receiver_only (s : MState) (db : MDB)
    (n t d tgt : String) (g : Nat) (item : MItem) (rest : List MItem)
    (hn : s.node = some n) :
    (∀ g0, s.maxGSIK = some g0 →
      (setOp s (some t) (some d) db).calls
          = [MCall.createProperty s.options.tenant n t d g0] ∧
      (setOp s (some t) (some d) db).receiver.maxGSIK = some g0 ∧
      (connectOp s (some tgt) (some t) db).calls
          = [MCall.createEdge s.options.tenant (some t) (some n) (some tgt) g0] ∧
      (connectOp s (some tgt) (some t) db).receiver.maxGSIK = some g0) ∧
    (s.maxGSIK = none → db.getNode n = item :: rest → item.MaxGSIK = some g →
      ((setOp s (some t) (some d) db).calls
          = [MCall.getNode n, MCall.createProperty s.options.tenant n t d g] ∧
       (setOp s (some t) (some d) db).receiver.maxGSIK = some g ∧
       ∀ m, okModel (setOp s (some t) (some d) db).result = some m →
         m.maxGSIK = s.options.maxGSIK) ∧
      ((connectOp s (some tgt) (some t) db).calls
          = [MCall.getNode n,
             MCall.createEdge s.options.tenant (some t) (some n) (some tgt) g] ∧
       (connectOp s (some tgt) (some t) db).receiver.maxGSIK = some g ∧
       ∀ m, okModel (connectOp s (some tgt) (some t) db).result = some m →
         m.maxGSIK = s.options.maxGSIK)) := by
  constructor
  · intro g0 hg
    refine ⟨?_, ?_, ?_, ?_⟩ <;> simp only [setOp, connectOp, hn, hg]
  · intro hg hdb hitem
    constructor
    · simp only [setOp, hn, hg, hdb, hitem]
      refine ⟨trivial, trivial, ?_⟩
      intro m hm
      simp only [okModel] at hm
      cases hm
      rfl
    · simp only [connectOp, hn, hg, hdb, hitem]
      refine ⟨trivial, trivial, ?_⟩
      intro m hm
      simp only [okModel] at hm
      cases hm
      rfl

/-- C2 witness: the amended theorem applied to the concrete bound model with
undefined `maxGSIK` and the store `db0` (whose stored partition count is 4),
covering both the `set` and the `connect` resolution paths. -/
theorem partition_resolution_cached_on_receiver_only_witness :
    ((setOp unresolvedModel (some "P") (some "D") db0).calls
        = [MCall.getNode "n", MCall.createProperty "" "n" "P" "D" 4] ∧
     (setOp unresolvedModel (some "P") (some "D") db0).receiver.maxGSIK = some 4 ∧
     ∀ m, okModel (setOp unresolvedModel (some "P") (some "D") db0).result = some m →
       m.maxGSIK = unresolvedModel.options.maxGSIK) ∧
    ((connectOp unresolvedModel (some "m") (some "P") db0).calls
        = [MCall.getNode "n", MCall.createEdge "" (some "P") (some "n") (some "m") 4] ∧
     (connectOp unresolvedModel (some "m") (some "P") db0).receiver.maxGSIK = some 4 ∧
     ∀ m, okModel (connectOp unresolvedModel (some "m") (some "P") db0).result = some m →
       m.maxGSIK = unresolvedModel.options.maxGSIK) :=
  (partition_resolution_cached_on_receiver_only
      unresolvedModel db0 "n" "P" "D" "m" 4
      { MaxGSIK := some 4 } [] rfl).2 rfl rfl rfl

/-! ### C3 -/

/-- C3 counterexample: `destroy` does NOT carry the receiver's accumulated
history forward.  On a receiver constructed with one prior history entry, the
returned EMPTY model's history is just the `deleteNode` response, not the
prior history extended with it. -/
theorem destroy_replaces_history :
    ((okModel (destroyOp (mkModel
        { typ := "T", node := some "n", history := [MEntry.raw "prior"] }) none db0).result).map
      (fun m => m.frozenHistory)) = some [MEntry.raw "deleteAck"] ∧
    ((okModel (destroyOp (mkModel
        { typ := "T", node := some "n", history := [MEntry.raw "prior"] }) none db0).result).map
      (fun m => m.frozenHistory))
      ≠ some ([MEntry.raw "prior"] ++ [MEntry.raw "deleteAck"]) := by
  decide

/-- C3 amended: for every bound model, `destroy` issues exactly one
`deleteNode` call and resolves to a new EMPTY model (node and data undefined,
properties and edges empty) whose history is exactly the `deleteNode`
response tracked during this operation — it REPLACES the receiver's
accumulated history rather than extending it. -/
theorem destroy_returns_empty_model_with_op_history (s : MState) (db : MDB)
    (n : String) (hn : s.node = some n) :
    (destroyOp s none db).calls = [MCall.deleteNode n] ∧
    ∃ m, okModel (destroyOp s none db).result = some m ∧
      m.node = none ∧ m.data = none ∧ m.properties = [] ∧ m.edges = [] ∧
      m.frozenHistory = [db.deleteNode n] := by
  simp only [destroyOp, hn]
  exact ⟨trivial, _, rfl, rfl, rfl, rfl, rfl, rfl⟩

/-- C3 witness: the amended theorem applied to a concrete bound model with a
non-empty prior history and the store `db0`. -/
theorem destroy_returns_empty_model_with_op_history_witness :
    (destroyOp (mkModel { typ := "T", node := some "n", history := [MEntry.raw "prior"] })
        none db0).calls = [MCall.deleteNode "n"] ∧
    ∃ m, okModel (destroyOp (mkModel
        { typ := "T", node := some "n", history := [MEntry.raw "prior"] }) none db0).result
          = some m ∧
      m.node = none ∧ m.data = none ∧ m.properties = [] ∧ m.edges = [] ∧
      m.frozenHistory = [db0.deleteNode "n"] :=
  destroy_returns_empty_model_with_op_history
    (mkModel { typ := "T", node := some "n", history := [MEntry.raw "prior"] }) db0 "n" rfl

/-! ### C6 -/

/-- C6: on a model already bound to a (truthy) node, `create` fails with
"Node already exists" before issuing any store call, for every config and
store, and leaves the receiver untouched. -/
theorem create_on_bound_fails_before_store (s : MState) (cfg : MCreateCfg) (db : MDB)
    (now : Nat) (h : truthyS s.node = true) :
    (createOp s cfg db now).calls = [] ∧
    (createOp s cfg db now).result = .error "Node already exists" ∧
    (createOp s cfg db now).receiver = s := by
  unfold createOp
  rw [if_pos h]
  exact ⟨rfl, rfl, rfl⟩

/-- C6 witness: `create` on the concrete bound model fails without store
calls. -/
theorem create_on_bound_fails_before_store_witness :
    (createOp boundModel { data := some "d" } db0 0).calls = [] ∧
    (createOp boundModel { data := some "d" } db0 0).result
        = .error "Node already exists" ∧
    (createOp boundModel { data := some "d" } db0 0).receiver = boundModel :=
  create_on_bound_fails_before_store boundModel { data := some "d" } db0 0 (by decide)

/-! ### C9 -/

/-- The property row of type 'A' used in the C9 failing input. -/
def itemA : MItem := { Typ := some "A", Data := some "1" }

/-- The property row of type 'B' used in the C9 failing input. -/
def itemB : MItem := { Typ := some "B", Data := some "2" }

/-- A bound model whose in-memory properties are `[A-row, B-row]`. -/
def twoPropModel : MState :=
  mkModel { typ := "T", node := some "n", properties := [itemA, itemB] }

/-- C9 (code bug): `remove('A')` on a model whose properties are
`[{Type:'A'},{Type:'B'}]` issues the single `deletePropertyOrEdge` call, but
the returned model's properties are `[{Type:'A'}]`: `properties.pop(index)`
ignores its argument and removes the LAST entry instead of the matching one,
so the 'A' entry survives and the unrelated 'B' entry is dropped. -/
theorem remove_pops_last_entry_not_matching :
    (removeOp twoPropModel (some "A") db0).calls = [MCall.deletePropertyOrEdge "n" "A"] ∧
    ((okModel (removeOp twoPropModel (some "A") db0).result).map
        (fun m => m.properties)) = some [itemA] := by
  decide

end DGM

/-!
Part B embeds the schema-driven engines of src/src (`Model.js`, `create.js`,
`update.js`, `get.js`).

Values are opaque JSON-ish data: strings or arrays (`Val`).  Row type strings
are modelled structurally by `TypeName`: the code builds discriminated types
with `` `${edge}#${cuid()}` `` and recovers the parts with `split('#')` —
constructor `TypeName.d base disc` models the concatenation `base#disc` and
pattern matching models the split (schema names contain no `#`).  The `[]`
suffix convention on declared edge names is kept as genuine string handling
(`hasBrackets` / `stripBrackets` over `splitOn "[]"`, matching
`indexOf('[]') > -1` / first-occurrence `replace('[]','')`).

The `cuid` module is modelled as an injective-by-assumption generator
`gen : Nat → String` threaded through a call counter: each `cuid()` call
consumes the next counter value, in JavaScript evaluation order.

The store driver is a structure of deterministic response functions; each
engine returns the issued call list alongside its result so the claims about
write/read fan-out can be stated.
-/

namespace DGS

/-- An opaque document value: a string, or an array of strings (the shape a
many-cardinality edge field holds: a list of target node ids). -/
inductive Val where
  | str (s : String)
  | vlist (xs : List String)
deriving DecidableEq, Repr

/-- A row type: either a plain name or a discriminated `base#disc` name. -/
inductive TypeName where
  | n (s : String)
  | d (base disc : String)
deriving DecidableEq, Repr

/-- JS object-key coercion of a possibly-undefined string (`obj[undefined]`
is the literal key `"undefined"`). -/
def jsKey (o : Option String) : String := o.getD "undefined"

/-- `t.split('#')[0]`. -/
def splitHead : TypeName → String
  | .n s => s
  | .d b _ => b

/-- `t.split('#')[1]` (undefined for a plain name). -/
def splitSecond : TypeName → Option String
  | .n _ => none
  | .d _ dsc => some dsc

/-- The string a `TypeName` denotes, used where the code uses the raw type
string as an object key (`[result.Item.Type]: ...`). -/
def typeKeyStr : Option TypeName → String
  | none => "undefined"
  | some (.n s) => s
  | some (.d b dsc) => b ++ "#" ++ dsc

/-- Leftmost-first split of a character list on the two-character separator
`[]` (the semantics of JS `'…'.split('[]')`). -/
def splitBr : List Char → List (List Char)
  | [] => [[]]
  | '[' :: ']' :: rest => [] :: splitBr rest
  | ch :: rest =>
    match splitBr rest with
    | [] => [[ch]]
    | x :: xs => (ch :: x) :: xs

/-- Rejoin split parts, reinstating the `[]` separators. -/
def joinBr : List (List Char) → List Char
  | [] => []
  | [x] => x
  | x :: xs => x ++ '[' :: ']' :: joinBr xs

/-- `edge.indexOf('[]') > -1` — the declared edge name contains `[]`. -/
def hasBrackets (e : String) : Bool := (splitBr e.data).length != 1

/-- `edge.replace('[]','')` — remove the FIRST occurrence of `[]`. -/
def stripBrackets (e : String) : String :=
  match splitBr e.data with
  | [] => e
  | [x] => String.mk x
  | x :: xs => String.mk (x ++ joinBr xs)

/-- A row/item in a store response. -/
structure Item where
  Node : Option Val := none
  Typ : Option TypeName := none
  Data : Option Val := none
  Target : Option Val := none
  GSIK : Option String := none
  MaxGSIK : Option Nat := none
deriving DecidableEq, Repr

/-- Schema options a model's engines are configured with (`Model.js`).
`nodeGenerator` is accepted by `Model` (defaulted to `cuid`) but `create.js`
never destructures it. -/
structure SchemaOpts where
  tenant : Option String := none
  typ : String
  key : String
  maxGSIK : Nat
  properties : List String := []
  edges : List String := []
  nodeGenerator : Option (Nat → String) := none

/-- Input documents are flat JS objects: field name to value. -/
abbrev InDoc := List (String × Val)

/-- `doc[k]` (`none` models both an absent key and a present-but-undefined
value, which the engines treat identically via `!== undefined`). -/
def docGet (doc : InDoc) (k : String) : Option Val :=
  (doc.find? (fun p => p.1 == k)).map (fun p => p.2)

/-- A store call issued by an engine. -/
inductive SCall where
  | createNode (node : String) (tenant : Option String) (typ : String) (data : Val)
      (maxGSIK : Nat)
  | createProperty (tenant : Option String) (typ : TypeName) (node : Val) (data : Val)
      (maxGSIK : Nat)
  | createEdge (tenant : Option String) (typ : TypeName) (node : Val) (target : Val)
      (maxGSIK : Nat)
  | getNode (node : Option Val)
  | getNodeType (node : Option Val) (typ : String)
  | getNodeTypes (node : Option Val) (limit : Nat) (cond : String) (value : TypeName)
deriving DecidableEq, Repr

/-- Deterministic model of the store driver used by the schema engines. -/
structure Store where
  createNodeItem : (node : String) → (tenant : Option String) → (typ : String) →
      (data : Val) → (maxGSIK : Nat) → Item
  createPropertyItem : (tenant : Option String) → (typ : TypeName) → (node : Val) →
      (data : Val) → (maxGSIK : Nat) → Item
  createEdgeItem : (tenant : Option String) → (typ : TypeName) → (node : Val) →
      (target : Val) → (maxGSIK : Nat) → Item
  getNodeItem : Option Val → Item
  getNodeTypeItem : (node : Option Val) → (typ : String) → Item
  getNodeTypesItems : (node : Option Val) → (limit : Nat) → (cond : String) →
      (value : TypeName) → List Item

/-- The `{Item}` response for a single-item call. -/
def respond (st : Store) : SCall → Item
  | .createNode n t ty d g => st.createNodeItem n t ty d g
  | .createProperty t ty n d g => st.createPropertyItem t ty n d g
  | .createEdge t ty n tg g => st.createEdgeItem t ty n tg g
  | .getNode n => st.getNodeItem n
  | .getNodeType n ty => st.getNodeTypeItem n ty
  | .getNodeTypes _ _ _ _ => {}

/-- A value of the result document: a scalar entry or a nested list-edge
collection object. -/
inductive OutVal where
  | v (x : Option Val)
  | obj (entries : List (String × Option Val))
deriving DecidableEq, Repr

/-- The merged result document, in `Object.assign` insertion order. -/
abbrev OutDoc := List (String × OutVal)

/-- Final value of key `k` in an `Object.assign`-merged document
(later bindings overwrite earlier ones). -/
def outGet (d : OutDoc) (k : String) : Option OutVal :=
  match d with
  | [] => none
  | p :: rest =>
    match outGet rest k with
    | some v => some v
    | none => if p.1 = k then some p.2 else none

/-- `properties.filter(p => doc[p] !== undefined).map(p => db.createProperty(...))`
(create.js lines 98-110 / update.js lines 109-121). -/
def propWriteCalls (opts : SchemaOpts) (doc : InDoc) (node : Val) : List SCall :=
  opts.properties.filterMap (fun p =>
    (docGet doc p).map (fun v =>
      SCall.createProperty opts.tenant (.n p) node v opts.maxGSIK))

/-- `edges.filter(e => doc[e] !== undefined).map(e => db.createEdge(...))`
(create.js lines 111-121 / update.js lines 122-132). -/
def scalarEdgeCalls (opts : SchemaOpts) (doc : InDoc) (node : Val) : List SCall :=
  opts.edges.filterMap (fun e =>
    (docGet doc e).map (fun v =>
      SCall.createEdge opts.tenant (.n e) node v opts.maxGSIK))

/-- The declared many-cardinality bases whose field is present in `doc`:
`edges.filter(e => e.indexOf('[]') > -1).map(e => e.replace('[]',''))
      .filter(e => doc[e] !== undefined)`. -/
def presentListBases (opts : SchemaOpts) (doc : InDoc) : List String :=
  ((opts.edges.filter hasBrackets).map stripBrackets).filter
    (fun b => (docGet doc b).isSome)

/-- `doc[edge].map(target => db.createEdge({type: edge#cuid(), ...}))` for one
base: each element consumes the next generator value. -/
def fanTargets (opts : SchemaOpts) (gen : Nat → String) (node : Val) (base : String) :
    List String → Nat → List SCall
  | [], _ => []
  | t :: ts, c =>
    SCall.createEdge opts.tenant (.d base (gen c)) node (Val.str t) opts.maxGSIK ::
      fanTargets opts gen node base ts (c + 1)

/-- Walk the present list-edge bases in order, fanning out each array.  A
present non-array value makes `doc[edge].map` throw synchronously, so the walk
stops there (earlier fan-outs were already issued). -/
def listFan (opts : SchemaOpts) (gen : Nat → String) (doc : InDoc) (node : Val) :
    List String → Nat → List (String × List SCall) × Option String
  | [], _ => ([], none)
  | b :: rest, c =>
    match docGet doc b with
    | some (.vlist xs) =>
      let grp := fanTargets opts gen node b xs c
      let (groups, err) := listFan opts gen doc node rest (c + xs.length)
      ((b, grp) :: groups, err)
    | _ => ([], some "TypeError")

/-- `propertiesResults.reduce((acc, r) => ({...acc, [r.Item.Type]: r.Item.Data}))`. -/
def propEntries (st : Store) (calls : List SCall) : OutDoc :=
  calls.map (fun cl =>
    (typeKeyStr (respond st cl).Typ, OutVal.v (respond st cl).Data))

/-- `edgesResults.reduce((acc, r) => ({...acc, [Type]: Target, [@Type]: Data}))`. -/
def edgeEntries (st : Store) (calls : List SCall) : OutDoc :=
  (calls.map (fun cl =>
    [(typeKeyStr (respond st cl).Typ, OutVal.v (respond st cl).Target),
     ("@" ++ typeKeyStr (respond st cl).Typ, OutVal.v (respond st cl).Data)])).flatten

/-- Inner reduce of one list-edge group:
`{[id]: r.Item.Target, [@id]: r.Item.Data}` with `id = r.Item.Type.split('#')[1]`
(an undefined `Type` would make `.split` throw). -/
def listGroupEntries (st : Store) : List SCall → Except String (List (String × Option Val))
  | [] => .ok []
  | cl :: cls =>
    match (respond st cl).Typ with
    | none => .error "TypeError"
    | some t =>
      (listGroupEntries st cls).map (fun rest =>
        (jsKey (splitSecond t), (respond st cl).Target) ::
        ("@" ++ jsKey (splitSecond t), (respond st cl).Data) :: rest)

/-- `edgeListResults.map(results => ({[results[0].Item.Type.split('#')[0]]: ...}))`
— an empty group makes `results[0].Item` throw. -/
def listEntries (st : Store) : List (String × List SCall) → Except String OutDoc
  | [] => .ok []
  | p :: rest =>
    match p.2 with
    | [] => .error "TypeError"
    | c0 :: _ =>
      match (respond st c0).Typ with
      | none => .error "TypeError"
      | some t0 => do
        let entries ← listGroupEntries st p.2
        let restDoc ← listEntries st rest
        .ok ((splitHead t0, OutVal.obj entries) :: restDoc)

/-- Result of a schema engine run: the issued store calls and the outcome. -/
structure SOut where
  calls : List SCall
  result : Except String OutDoc
deriving Repr

/-- Extract a fulfilled result document. -/
def okOut : Except String OutDoc → Option OutDoc
  | .ok d => some d
  | .error _ => none

/-- `update.js` (lines 97-190): requires `doc.id`; issues the three concurrent
write fan-outs over the schema fields present in `doc`; merges
`{id} ∪ propMap ∪ edgeMap ∪ listEdgeMap` from the store responses. -/
def updateFn (opts : SchemaOpts) (st : Store) (gen : Nat → String) (doc : InDoc)
    (c : Nat) : SOut :=
  match docGet doc "id" with
  | none => ⟨[], .error "Id is undefined"⟩
  | some idv =>
    let pCalls := propWriteCalls opts doc idv
    let sCalls := scalarEdgeCalls opts doc idv
    let (groups, err) := listFan opts gen doc idv (presentListBases opts doc) c
    let calls := pCalls ++ sCalls ++ (groups.map (fun g => g.2)).flatten
    match err with
    | some e => ⟨calls, .error e⟩
    | none =>
      ⟨calls,
        (listEntries st groups).map (fun les =>
          (("id", OutVal.v (some idv)) ::
            propEntries st pCalls ++ edgeEntries st sCalls) ++ les)⟩

/-- `create.js` (lines 74-181): generates the node id with `cuid()` (the
configured `nodeGenerator` is not consulted and no tenant prefix is applied),
requires `doc[key]`, issues `createNode` and then the same three write
fan-outs as update; merges `{id, [key]: data} ∪ propMap ∪ edgeMap ∪
listEdgeMap`. -/
def createFn (opts : SchemaOpts) (st : Store) (gen : Nat → String) (doc : InDoc)
    (c : Nat) : SOut :=
  let node := gen c
  match docGet doc opts.key with
  | none => ⟨[], .error "Data is undefined"⟩
  | some data =>
    let nodeV := Val.str node
    let pCalls := propWriteCalls opts doc nodeV
    let sCalls := scalarEdgeCalls opts doc nodeV
    let (groups, err) := listFan opts gen doc nodeV (presentListBases opts doc) (c + 1)
    let calls := SCall.createNode node opts.tenant opts.typ data opts.maxGSIK ::
      pCalls ++ sCalls ++ (groups.map (fun g => g.2)).flatten
    match err with
    | some e => ⟨calls, .error e⟩
    | none =>
      ⟨calls,
        (listEntries st groups).map (fun les =>
          (("id", OutVal.v (some (Val.str node))) :: (opts.key, OutVal.v (some data)) ::
            propEntries st pCalls ++ edgeEntries st sCalls) ++ les)⟩

/-- One entry of a `get` request's `edgesList`. -/
structure EdgeListReq where
  typ : String
  limit : Option Nat := none
  beginsWith : Option String := none
deriving DecidableEq, Repr

/-- A `properties`/`edges` request field: the `'$all'` keyword or an explicit
name list (default `[]`). -/
inductive ReqField where
  | all
  | names (l : List String)
deriving DecidableEq, Repr

/-- A `get` request document. -/
structure GetReq where
  id : Option Val := none
  properties : ReqField := .names []
  edges : ReqField := .names []
  edgesList : List EdgeListReq := []
deriving DecidableEq, Repr

/-- The `sortKeyValue` sent for one edges-list read:
`beginsWith` present gives `type + '#' + beginsWith`, else just `type`. -/
def elValue (el : EdgeListReq) : TypeName :=
  match el.beginsWith with
  | some b => TypeName.d el.typ b
  | none => TypeName.n el.typ

/-- Inner reduce of one edges-list response:
`{[id]: item.Target, [@id]: item.Data}` with `id = item.Type.split('#')[1]`
(an undefined `Type` would make `.split` throw). -/
def getListObj : List Item → Except String (List (String × Option Val))
  | [] => .ok []
  | it :: rest =>
    match it.Typ with
    | none => .error "TypeError"
    | some t =>
      (getListObj rest).map (fun r =>
        (jsKey (splitSecond t), it.Target) ::
        ("@" ++ jsKey (splitSecond t), it.Data) :: r)

/-- The edges-list portion of a `get` result, keyed by the requested type
(`response.Type = edgeList.type`). -/
def getListEntries (st : Store) (node : Option Val) :
    List EdgeListReq → Except String OutDoc
  | [] => .ok []
  | el :: rest => do
    let o ← getListObj (st.getNodeTypesItems node (el.limit.getD 10)
      "begins_with(#Type, :Value)" (elValue el))
    let r ← getListEntries st node rest
    .ok ((el.typ, OutVal.obj o) :: r)

/-- `get.js` (lines 76-173): resolves `'$all'`, filters every requested name
against the declared schema, issues `getNode` plus one `getNodeType` per
surviving property/edge and one `getNodeTypes` (limit default 10, optional
`beginsWith` discriminator prefix) per surviving edges-list entry, and merges
`{id, [key]: nodeData} ∪ propMap ∪ edgeMap ∪ listMap`. -/
def getFn (opts : SchemaOpts) (st : Store) (req : GetReq) : SOut :=
  let node := req.id
  let props := match req.properties with
    | .all => opts.properties
    | .names l => l
  let edges := match req.edges with
    | .all => opts.edges.filter (fun e => !hasBrackets e)
    | .names l => l
  let pCalls := (props.filter (fun p => opts.properties.contains p)).map
    (fun p => SCall.getNodeType node p)
  let eCalls := (edges.filter (fun e => opts.edges.contains e)).map
    (fun e => SCall.getNodeType node e)
  let els := req.edgesList.filter (fun el => opts.edges.contains (el.typ ++ "[]"))
  let lCalls := els.map (fun el =>
    SCall.getNodeTypes node (el.limit.getD 10) "begins_with(#Type, :Value)" (elValue el))
  let calls := SCall.getNode node :: pCalls ++ eCalls ++ lCalls
  ⟨calls,
    (getListEntries st node els).map (fun les =>
      (("id", OutVal.v node) ::
       (opts.key, OutVal.v (st.getNodeItem node).Data) ::
       propEntries st pCalls ++ edgeEntries st eCalls) ++ les)⟩

/-! ### Fixtures for Part B claims -/

/-- The `cuid` module modelled over the call counter. -/
def cuidModel (n : Nat) : String := "c" ++ Nat.repr n

/-- A store that fulfils the §6 GraphStore contract, echoing the written type
and data and denormalizing edge data as the constant `"Cool"` (as the
repository's own test driver does). -/
def testStore : Store where
  createNodeItem := fun n _ ty d g =>
    { Node := some (.str n), Typ := some (.n ty), Data := some d,
      Target := some (.str n), GSIK := some (n ++ "#0"), MaxGSIK := some g }
  createPropertyItem := fun _ ty n d _ => { Node := some n, Typ := some ty, Data := some d }
  createEdgeItem := fun _ ty n tg _ =>
    { Node := some n, Typ := some ty, Data := some (.str "Cool"), Target := some tg }
  getNodeItem := fun n => { Node := n, Data := some (.str "Data Text") }
  getNodeTypeItem := fun n ty =>
    { Node := n, Typ := some (.n ty), Data := some (.str ("D" ++ ty)),
      Target := some (.str ("T" ++ ty)) }
  getNodeTypesItems := fun n _ _ v =>
    [{ Node := n, Typ := some (.d (splitHead v) "k1"), Data := some (.str "LD"),
       Target := some (.str "LT") }]

/-- The C8 scenario schema: tenant t1, type Book, key Name, one declared
property Genre, no edges, maxGSIK 4. -/
def opts8 : SchemaOpts :=
  { tenant := some "t1", typ := "Book", key := "Name", maxGSIK := 4,
    properties := ["Genre"] }

/-- The C8 scenario document. -/
def doc8 : InDoc := [("Name", .str "Elantris"), ("Genre", .str "Fantasy")]

/-- Schema whose Model was configured with tenant "111" and a custom node
generator (which `create.js` never reads). -/
def opts7 : SchemaOpts :=
  { tenant := some "111", typ := "Test", key := "ExampleKey", maxGSIK := 0,
    nodeGenerator := some (fun _ => "GEN") }

/-- The C7 document. -/
def doc7 : InDoc := [("ExampleKey", .str "Something")]

/-- Schema for the C4 counterexample: key Name, one declared property One. -/
def opts4 : SchemaOpts :=
  { typ := "Test", key := "Name", maxGSIK := 0, properties := ["One"] }

/-- The C4 counterexample document: `Name` (the key attribute) is supplied by
the caller but is neither a declared property nor an edge. -/
def doc4 : InDoc := [("id", .str "n1"), ("Name", .str "X"), ("One", .str "1")]

/-! ### C7 -/

/-- C7 (code bug): the new node identifier is NOT produced by the configured
pluggable generator and is NOT tenant-prefixed.  With tenant "111" and a
configured `nodeGenerator` returning "GEN", `create` still names the node by
the raw `cuid()` value ("c0"): removing the configured generator changes
nothing, the resulting id is "c0", and it does not start with "111#"
(its first characters differ from `111#`), although the repository's own test
expects `doc.id.indexOf(tenant + '#') === 0`. -/
theorem create_ignores_generator_and_tenant :
    createFn { opts7 with nodeGenerator := none } testStore cuidModel doc7 0
        = createFn opts7 testStore cuidModel doc7 0 ∧
    ((okOut (createFn opts7 testStore cuidModel doc7 0).result).bind
        (fun o => outGet o "id")) = some (OutVal.v (some (.str "c0"))) ∧
    ("c0".data.take 4 ≠ "111#".data) := by
  refine ⟨rfl, by decide, by decide⟩

/-! ### C8 -/

/-- C8: with the scenario schema, `create({Name:'Elantris', Genre:'Fantasy'})`
issues exactly 2 store writes (one createNode, one createProperty) and
resolves to `{id: c0, Name: 'Elantris', Genre: 'Fantasy'}`. -/
theorem create_scenario_two_writes :
    (createFn opts8 testStore cuidModel doc8 0).calls
        = [SCall.createNode "c0" (some "t1") "Book" (.str "Elantris") 4,
           SCall.createProperty (some "t1") (.n "Genre") (.str "c0") (.str "Fantasy") 4] ∧
    (createFn opts8 testStore cuidModel doc8 0).result
        = .ok [("id", OutVal.v (some (.str "c0"))),
               ("Name", OutVal.v (some (.str "Elantris"))),
               ("Genre", OutVal.v (some (.str "Fantasy")))] := by
  constructor <;> rfl

/-! ### C4 counterexample -/

/-- C4 counterexample: `update` does NOT merge the caller-supplied doc into
the result.  The doc carries the key-attribute pair `Name: 'X'` (not a
declared property/edge), the update resolves successfully, yet the resulting
document has no `Name` entry at all. -/
theorem update_drops_caller_doc_fields :
    docGet doc4 "Name" = some (.str "X") ∧
    (okOut (updateFn opts4 testStore cuidModel doc4 0).result).isSome = true ∧
    ((okOut (updateFn opts4 testStore cuidModel doc4 0).result).bind
        (fun o => outGet o "Name")) = none := by
  refine ⟨by decide, by decide, by decide⟩

/-! ### C10 -/

theorem filter_filter_drop {α : Type} (P Q : α → Bool)
    (h : ∀ x, Q x = false → P x = false) :
    ∀ l : List α, (l.filter Q).filter P = l.filter P := by
  intro l
  induction l with
  | nil => rfl
  | cons x xs ih =>
    cases hQ : Q x
    · simp [List.filter_cons, hQ, h x hQ, ih]
    · simp [List.filter_cons, hQ, ih]

/-- C10: `get` silently drops undeclared request fields.  Removing from the
request a property name not among the declared properties, a scalar edge name
not among the declared edges, or an `edgesList` entry whose type (with `[]`
appended) is not a declared edge, changes neither the issued store reads nor
the resulting document: the undeclared entry produced no read and contributed
no entry. -/
theorem get_drops_undeclared_requests (opts : SchemaOpts) (st : Store) (req : GetReq)
    (p e t : String) (l le : List String) (L : List EdgeListReq)
    (hp : opts.properties.contains p = false)
    (he : opts.edges.contains e = false)
    (ht : opts.edges.contains (t ++ "[]") = false) :
    getFn opts st { req with properties := .names l }
      = getFn opts st { req with properties := .names (l.filter (fun x => x ≠ p)) } ∧
    getFn opts st { req with edges := .names le }
      = getFn opts st { req with edges := .names (le.filter (fun x => x ≠ e)) } ∧
    getFn opts st { req with edgesList := L }
      = getFn opts st { req with edgesList := L.filter (fun el => el.typ ≠ t) } := by
  refine ⟨?_, ?_, ?_⟩
  · have h : (l.filter (fun x => decide (x ≠ p))).filter
        (fun x => opts.properties.contains x)
        = l.filter (fun x => opts.properties.contains x) :=
      filter_filter_drop _ _
        (fun x hx => by
          have hxp : x = p := by simpa using hx
          exact hxp ▸ hp) l
    unfold getFn
    dsimp only
    rw [h]
  · have h : (le.filter (fun x => decide (x ≠ e))).filter
        (fun x => opts.edges.contains x)
        = le.filter (fun x => opts.edges.contains x) :=
      filter_filter_drop _ _
        (fun x hx => by
          have hxe : x = e := by simpa using hx
          exact hxe ▸ he) le
    unfold getFn
    dsimp only
    rw [h]
  · have h : (L.filter (fun el => decide (el.typ ≠ t))).filter
        (fun el => opts.edges.contains (el.typ ++ "[]"))
        = L.filter (fun el => opts.edges.contains (el.typ ++ "[]")) :=
      filter_filter_drop _ _
        (fun el hx => by
          have hxt : el.typ = t := by simpa using hx
          rw [hxt]
          exact ht) L
    unfold getFn
    dsimp only
    rw [h]

/-- C10 witness: with the C8 schema (declared properties `[Genre]`, no
declared edges), requesting the undeclared property "X", edge "Y" and
edges-list type "Fans" is the same as not requesting them. -/
theorem get_drops_undeclared_requests_witness :
    getFn opts8 testStore { id := some (.str "n1"), properties := .names ["Genre", "X"] }
      = getFn opts8 testStore
          { id := some (.str "n1"),
            properties := .names (["Genre", "X"].filter (fun x => x ≠ "X")) } ∧
    getFn opts8 testStore { id := some (.str "n1"), edges := .names ["Y"] }
      = getFn opts8 testStore
          { id := some (.str "n1"), edges := .names (["Y"].filter (fun x => x ≠ "Y")) } ∧
    getFn opts8 testStore { id := some (.str "n1"), edgesList := [{ typ := "Fans" }] }
      = getFn opts8 testStore
          { id := some (.str "n1"),
            edgesList := [{ typ := "Fans" }].filter (fun el => el.typ ≠ "Fans") } :=
  get_drops_undeclared_requests opts8 testStore { id := some (.str "n1") }
    "X" "Y" "Fans" ["Genre", "X"] ["Y"] [{ typ := "Fans" }]
    (by decide) (by decide) (by decide)

/-! ### C5 -/

/-- The given call is a `createProperty` write of property type `p`. -/
def isPropCallFor (p : String) : SCall → Bool
  | .createProperty _ (.n q) _ _ _ => q == p
  | _ => false

/-- The given call is a `createEdge` write of plain (scalar) edge type `e`. -/
def isScalarEdgeCallFor (e : String) : SCall → Bool
  | .createEdge _ (.n q) _ _ _ => q == e
  | _ => false

/-- The discriminators of all `createEdge` writes issued under `b#…`. -/
def discsFor (b : String) (calls : List SCall) : List String :=
  calls.filterMap (fun cl =>
    match cl with
    | .createEdge _ (.d b' dsc) _ _ _ => if b' == b then some dsc else none
    | _ => none)

theorem countP_beq_of_not_mem (l : List String) (p : String) (hmem : p ∉ l) :
    l.countP (fun q => q == p) = 0 :=
  List.countP_eq_zero.mpr (fun q hq => by
    simp only [beq_iff_eq]
    exact fun hqp => hmem (hqp ▸ hq))

theorem countP_beq_of_nodup (l : List String) (p : String) (hnd : l.Nodup)
    (hmem : p ∈ l) : l.countP (fun q => q == p) = 1 := by
  induction l with
  | nil => cases hmem
  | cons x xs ih =>
    rw [List.countP_cons]
    rcases List.mem_cons.mp hmem with h | h
    · have hx : p ∉ xs := by
        intro hpx
        exact (List.nodup_cons.mp hnd).1 (h ▸ hpx)
      rw [countP_beq_of_not_mem xs p hx]
      simp [h]
    · have hone := ih (List.nodup_cons.mp hnd).2 h
      have hxp : (x == p) = false := by
        have hne : x ≠ p := fun hh => (List.nodup_cons.mp hnd).1 (hh ▸ h)
        simp [hne]
      simp [hone, hxp]

theorem countP_propWriteCalls (opts : SchemaOpts) (doc : InDoc) (node : Val)
    (p : String) :
    (propWriteCalls opts doc node).countP (isPropCallFor p)
      = opts.properties.countP (fun q => q == p && (docGet doc q).isSome) := by
  unfold propWriteCalls
  induction opts.properties with
  | nil => rfl
  | cons q l ih =>
    rw [List.filterMap_cons]
    cases hq : docGet doc q
    · simp [List.countP_cons, hq, ih]
    · simp [List.countP_cons, hq, ih, isPropCallFor, Bool.and_comm]

theorem countP_scalarEdgeCalls (opts : SchemaOpts) (doc : InDoc) (node : Val)
    (e : String) :
    (scalarEdgeCalls opts doc node).countP (isScalarEdgeCallFor e)
      = opts.edges.countP (fun q => q == e && (docGet doc q).isSome) := by
  unfold scalarEdgeCalls
  induction opts.edges with
  | nil => rfl
  | cons q l ih =>
    rw [List.filterMap_cons]
    cases hq : docGet doc q
    · simp [List.countP_cons, hq, ih]
    · simp [List.countP_cons, hq, ih, isScalarEdgeCallFor, Bool.and_comm]

theorem mem_fanTargets (opts : SchemaOpts) (gen : Nat → String) (node : Val)
    (b : String) (xs : List String) (c : Nat) (cl : SCall)
    (h : cl ∈ fanTargets opts gen node b xs c) :
    ∃ k tg, cl = SCall.createEdge opts.tenant (.d b (gen k)) node (Val.str tg)
        opts.maxGSIK := by
  induction xs generalizing c with
  | nil => cases h
  | cons t ts ih =>
    rcases List.mem_cons.mp h with h | h
    · exact ⟨c, t, h⟩
    · exact ih _ h

theorem mem_listFan_join (opts : SchemaOpts) (gen : Nat → String) (doc : InDoc)
    (node : Val) (bases : List String) (c : Nat) (cl : SCall)
    (h : cl ∈ (((listFan opts gen doc node bases c).1).map (fun g => g.2)).flatten) :
    ∃ b, b ∈ bases ∧ ∃ k tg, cl = SCall.createEdge opts.tenant (.d b (gen k)) node
        (Val.str tg) opts.maxGSIK := by
  induction bases generalizing c with
  | nil => cases h
  | cons b rest ih =>
    rw [listFan] at h
    cases hd : docGet doc b with
    | none => rw [hd] at h; cases h
    | some v =>
      cases v with
      | str s => rw [hd] at h; cases h
      | vlist xs =>
        rw [hd] at h
        dsimp only at h
        simp only [List.map_cons, List.flatten_cons, List.mem_append] at h
        rcases h with h | h
        · obtain ⟨k, tg, hk⟩ := mem_fanTargets opts gen node b xs c cl h
          exact ⟨b, List.mem_cons_self b rest, k, tg, hk⟩
        · obtain ⟨b2, hb2, k, tg, hk⟩ := ih _ h
          exact ⟨b2, List.mem_cons_of_mem b hb2, k, tg, hk⟩

theorem countP_prop_zero_of_edges (calls : List SCall) (p : String)
    (h : ∀ cl ∈ calls, ∃ ten ty nd tg g, cl = SCall.createEdge ten ty nd tg g) :
    calls.countP (isPropCallFor p) = 0 :=
  List.countP_eq_zero.mpr (fun cl hcl => by
    obtain ⟨ten, ty, nd, tg, g, rfl⟩ := h cl hcl
    simp [isPropCallFor])

theorem countP_scalar_zero_of_props (calls : List SCall) (e : String)
    (h : ∀ cl ∈ calls, ∃ ten ty nd d g, cl = SCall.createProperty ten ty nd d g) :
    calls.countP (isScalarEdgeCallFor e) = 0 :=
  List.countP_eq_zero.mpr (fun cl hcl => by
    obtain ⟨ten, ty, nd, d, g, rfl⟩ := h cl hcl
    simp [isScalarEdgeCallFor])

theorem countP_scalar_zero_of_disc (calls : List SCall) (e : String)
    (h : ∀ cl ∈ calls, ∃ ten b dsc nd tg g,
        cl = SCall.createEdge ten (.d b dsc) nd tg g) :
    calls.countP (isScalarEdgeCallFor e) = 0 :=
  List.countP_eq_zero.mpr (fun cl hcl => by
    obtain ⟨ten, b, dsc, nd, tg, g, rfl⟩ := h cl hcl
    simp [isScalarEdgeCallFor])

theorem mem_propWriteCalls (opts : SchemaOpts) (doc : InDoc) (node : Val) (cl : SCall)
    (h : cl ∈ propWriteCalls opts doc node) :
    ∃ q v, q ∈ opts.properties ∧ docGet doc q = some v ∧
      cl = SCall.createProperty opts.tenant (.n q) node v opts.maxGSIK := by
  unfold propWriteCalls at h
  rcases List.mem_filterMap.mp h with ⟨q, hq, hf⟩
  cases hd : docGet doc q with
  | none => rw [hd] at hf; cases hf
  | some v =>
    rw [hd] at hf
    simp only [Option.map_some'] at hf
    cases hf
    exact ⟨q, v, hq, hd, rfl⟩

theorem mem_scalarEdgeCalls (opts : SchemaOpts) (doc : InDoc) (node : Val) (cl : SCall)
    (h : cl ∈ scalarEdgeCalls opts doc node) :
    ∃ q v, q ∈ opts.edges ∧ docGet doc q = some v ∧
      cl = SCall.createEdge opts.tenant (.n q) node v opts.maxGSIK := by
  unfold scalarEdgeCalls at h
  rcases List.mem_filterMap.mp h with ⟨q, hq, hf⟩
  cases hd : docGet doc q with
  | none => rw [hd] at hf; cases hf
  | some v =>
    rw [hd] at hf
    simp only [Option.map_some'] at hf
    cases hf
    exact ⟨q, v, hq, hd, rfl⟩

theorem discsFor_append (b : String) (l1 l2 : List SCall) :
    discsFor b (l1 ++ l2) = discsFor b l1 ++ discsFor b l2 :=
  List.filterMap_append l1 l2 _

theorem discsFor_eq_nil (b : String) (calls : List SCall)
    (h : ∀ cl ∈ calls, ∀ b' dsc ten nd tg g,
        cl = SCall.createEdge ten (.d b' dsc) nd tg g → b' ≠ b) :
    discsFor b calls = [] := by
  unfold discsFor
  rw [List.filterMap_eq_nil]
  intro cl hcl
  cases cl with
  | createEdge ten ty nd tg g =>
    cases ty with
    | n s => rfl
    | d b' dsc =>
      have : b' ≠ b := h _ hcl b' dsc ten nd tg g rfl
      simp [this]
  | createNode _ _ _ _ _ => rfl
  | createProperty _ _ _ _ _ => rfl
  | getNode _ => rfl
  | getNodeType _ _ => rfl
  | getNodeTypes _ _ _ _ => rfl

theorem discsFor_fanTargets_self (opts : SchemaOpts) (gen : Nat → String)
    (node : Val) (b : String) (xs : List String) (c : Nat) :
    discsFor b (fanTargets opts gen node b xs c)
      = (List.range' c xs.length).map gen := by
  induction xs generalizing c with
  | nil => rfl
  | cons t ts ih =>
    rw [fanTargets]
    unfold discsFor at ih ⊢
    rw [List.filterMap_cons]
    simp only [beq_self_eq_true, if_true]
    rw [ih]
    rfl

theorem discsFor_fanTargets_other (opts : SchemaOpts) (gen : Nat → String)
    (node : Val) (b b' : String) (xs : List String) (c : Nat) (hne : b' ≠ b) :
    discsFor b (fanTargets opts gen node b' xs c) = [] := by
  apply discsFor_eq_nil
  intro cl hcl bb dsc ten nd tg g hcl2
  obtain ⟨k, tgt, hk⟩ := mem_fanTargets opts gen node b' xs c cl hcl
  rw [hk] at hcl2
  cases hcl2
  exact hne

theorem listFan_err_none (opts : SchemaOpts) (gen : Nat → String) (doc : InDoc)
    (node : Val) (bases : List String) (c : Nat)
    (hall : ∀ b ∈ bases, ∃ ys, docGet doc b = some (.vlist ys)) :
    (listFan opts gen doc node bases c).2 = none := by
  induction bases generalizing c with
  | nil => rfl
  | cons b rest ih =>
    obtain ⟨ys, hys⟩ := hall b (List.mem_cons_self b rest)
    rw [listFan, hys]
    dsimp only
    exact ih _ (fun b' hb' => hall b' (List.mem_cons_of_mem b hb'))

theorem discsFor_listFan (opts : SchemaOpts) (gen : Nat → String) (doc : InDoc)
    (node : Val) (bases : List String) (c : Nat) (b : String) (xs : List String)
    (hnd : bases.Nodup) (hb : b ∈ bases) (hdoc : docGet doc b = some (.vlist xs))
    (hall : ∀ b' ∈ bases, ∃ ys, docGet doc b' = some (.vlist ys)) :
    ∃ c0, discsFor b ((((listFan opts gen doc node bases c).1).map
        (fun g => g.2)).flatten) = (List.range' c0 xs.length).map gen := by
  induction bases generalizing c with
  | nil => cases hb
  | cons b1 rest ih =>
    obtain ⟨ys, hys⟩ := hall b1 (List.mem_cons_self b1 rest)
    rw [listFan, hys]
    dsimp only
    simp only [List.map_cons, List.flatten_cons]
    rw [discsFor_append]
    rcases List.mem_cons.mp hb with hbe | hbm
    · subst hbe
      have hxs : ys = xs := by
        rw [hys] at hdoc
        cases hdoc
        rfl
      subst hxs
      have hnotmem : b ∉ rest := (List.nodup_cons.mp hnd).1
      have hz : discsFor b ((((listFan opts gen doc node rest (c + ys.length)).1).map
          (fun g => g.2)).flatten) = [] := by
        apply discsFor_eq_nil
        intro cl hcl b' dsc ten nd tg g hcl2
        obtain ⟨b2, hb2, k, tg2, hk⟩ :=
          mem_listFan_join opts gen doc node rest (c + ys.length) cl hcl
        rw [hk] at hcl2
        cases hcl2
        exact fun hbb => hnotmem (hbb ▸ hb2)
      rw [discsFor_fanTargets_self, hz, List.append_nil]
      exact ⟨c, rfl⟩
    · have hne : b1 ≠ b := fun hh =>
        (List.nodup_cons.mp hnd).1 (hh ▸ hbm)
      rw [discsFor_fanTargets_other opts gen node b b1 ys c hne, List.nil_append]
      exact ih _ (List.nodup_cons.mp hnd).2 hbm
        (fun b' hb' => hall b' (List.mem_cons_of_mem b1 hb'))

theorem countP_congr_mem {α : Type} (l : List α) (P Q : α → Bool)
    (h : ∀ a ∈ l, P a = Q a) : l.countP P = l.countP Q := by
  induction l with
  | nil => rfl
  | cons x xs ih =>
    rw [List.countP_cons, List.countP_cons,
      ih (fun a ha => h a (List.mem_cons_of_mem x ha)),
      h x (List.mem_cons_self x xs)]

theorem discsFor_nil_of_props (calls : List SCall) (b : String)
    (h : ∀ cl ∈ calls, ∃ ten ty nd d g, cl = SCall.createProperty ten ty nd d g) :
    discsFor b calls = [] := by
  unfold discsFor
  rw [List.filterMap_eq_nil]
  intro cl hcl
  obtain ⟨ten, ty, nd, d, g, rfl⟩ := h cl hcl
  rfl

theorem discsFor_nil_of_scalar (calls : List SCall) (b : String)
    (h : ∀ cl ∈ calls, ∃ ten q nd tg g, cl = SCall.createEdge ten (.n q) nd tg g) :
    discsFor b calls = [] := by
  unfold discsFor
  rw [List.filterMap_eq_nil]
  intro cl hcl
  obtain ⟨ten, q, nd, tg, g, rfl⟩ := h cl hcl
  rfl

/-- The store calls issued by `update` on a doc with a defined id: the
property fan-out, then the scalar-edge fan-out, then the list-edge fan-outs
(independently of whether the run later fails). -/
theorem updateFn_calls (opts : SchemaOpts) (st : Store) (gen : Nat → String)
    (doc : InDoc) (c : Nat) (idv : Val) (hid : docGet doc "id" = some idv) :
    (updateFn opts st gen doc c).calls
      = propWriteCalls opts doc idv ++ scalarEdgeCalls opts doc idv ++
        (((listFan opts gen doc idv (presentListBases opts doc) c).1).map
          (fun g => g.2)).flatten := by
  unfold updateFn
  rw [hid]
  dsimp only
  rcases hfan : listFan opts gen doc idv (presentListBases opts doc) c with ⟨groups, err⟩
  cases err <;> simp [hfan, List.append_assoc]

/-- C5: `update` issues exactly one `createProperty` call per declared
property present in the doc, exactly one `createEdge` call per declared
scalar edge present, and exactly one `createEdge` call per element of each
declared many-cardinality edge list present — each list element under a
distinct discriminator suffix — while declared fields absent from the doc
(or present as undefined) produce no store call at all. -/
theorem update_write_fanout (opts : SchemaOpts) (st : Store) (gen : Nat → String)
    (doc : InDoc) (c : Nat) (idv : Val)
    (hgen : Function.Injective gen)
    (hid : docGet doc "id" = some idv)
    (hndP : opts.properties.Nodup)
    (hndE : opts.edges.Nodup)
    (hbases : ((opts.edges.filter hasBrackets).map stripBrackets).Nodup)
    (hlists : ∀ e ∈ opts.edges, hasBrackets e = true →
        ∀ v, docGet doc (stripBrackets e) = some v → ∃ xs, v = Val.vlist xs) :
    (∀ p ∈ opts.properties, (docGet doc p).isSome = true →
        (updateFn opts st gen doc c).calls.countP (isPropCallFor p) = 1) ∧
    (∀ f : String, docGet doc f = none →
        (updateFn opts st gen doc c).calls.countP (isPropCallFor f) = 0 ∧
        (updateFn opts st gen doc c).calls.countP (isScalarEdgeCallFor f) = 0 ∧
        discsFor f (updateFn opts st gen doc c).calls = []) ∧
    (∀ e ∈ opts.edges, hasBrackets e = false → (docGet doc e).isSome = true →
        (updateFn opts st gen doc c).calls.countP (isScalarEdgeCallFor e) = 1) ∧
    (∀ e ∈ opts.edges, hasBrackets e = true →
        ∀ xs, docGet doc (stripBrackets e) = some (Val.vlist xs) →
          (discsFor (stripBrackets e) (updateFn opts st gen doc c).calls).length
              = xs.length ∧
          (discsFor (stripBrackets e) (updateFn opts st gen doc c).calls).Nodup) := by
  have hall : ∀ b ∈ presentListBases opts doc, ∃ ys, docGet doc b = some (.vlist ys) := by
    intro b hb
    unfold presentListBases at hb
    rcases List.mem_filter.mp hb with ⟨hbm, hbp⟩
    rcases List.mem_map.mp hbm with ⟨e, he, rfl⟩
    rcases List.mem_filter.mp he with ⟨heE, heB⟩
    cases hdv : docGet doc (stripBrackets e) with
    | none => rw [hdv] at hbp; cases hbp
    | some v =>
      obtain ⟨xs, rfl⟩ := hlists e heE heB v hdv
      exact ⟨xs, rfl⟩
  have hcalls := updateFn_calls opts st gen doc c idv hid
  have hfanShape : ∀ cl ∈ (((listFan opts gen doc idv (presentListBases opts doc) c).1).map
      (fun g => g.2)).flatten, ∃ b, b ∈ presentListBases opts doc ∧ ∃ k tg,
        cl = SCall.createEdge opts.tenant (.d b (gen k)) idv (Val.str tg) opts.maxGSIK :=
    fun cl hcl => mem_listFan_join opts gen doc idv _ c cl hcl
  refine ⟨?_, ?_, ?_, ?_⟩
  · -- one property write per declared property present
    intro p hp hsome
    rw [hcalls, List.countP_append, List.countP_append]
    rw [countP_propWriteCalls]
    have h1 : opts.properties.countP (fun q => q == p && (docGet doc q).isSome)
        = opts.properties.countP (fun q => q == p) := by
      apply countP_congr_mem
      intro a _
      cases ha : (a == p)
      · rfl
      · have : a = p := by simpa using ha
        subst this
        simp [hsome]
    have h2 : (scalarEdgeCalls opts doc idv).countP (isPropCallFor p) = 0 := by
      apply countP_prop_zero_of_edges
      intro cl hcl
      obtain ⟨q, v, _, _, rfl⟩ := mem_scalarEdgeCalls opts doc idv cl hcl
      exact ⟨_, _, _, _, _, rfl⟩
    have h3 : ((((listFan opts gen doc idv (presentListBases opts doc) c).1).map
        (fun g => g.2)).flatten).countP (isPropCallFor p) = 0 := by
      apply countP_prop_zero_of_edges
      intro cl hcl
      obtain ⟨b, _, k, tg, rfl⟩ := hfanShape cl hcl
      exact ⟨_, _, _, _, _, rfl⟩
    rw [h1, countP_beq_of_nodup _ _ hndP hp, h2, h3]
  · -- absent fields produce no store call
    intro f hf
    have hp0 : (propWriteCalls opts doc idv).countP (isPropCallFor f) = 0 := by
      rw [countP_propWriteCalls]
      apply List.countP_eq_zero.mpr
      intro a _
      cases ha : (a == f)
      · simp
      · have : a = f := by simpa using ha
        subst this
        simp [hf]
    have hs0 : (scalarEdgeCalls opts doc idv).countP (isScalarEdgeCallFor f) = 0 := by
      rw [countP_scalarEdgeCalls]
      apply List.countP_eq_zero.mpr
      intro a _
      cases ha : (a == f)
      · simp
      · have : a = f := by simpa using ha
        subst this
        simp [hf]
    have hps0 : (propWriteCalls opts doc idv).countP (isScalarEdgeCallFor f) = 0 := by
      apply countP_scalar_zero_of_props
      intro cl hcl
      obtain ⟨q, v, _, _, rfl⟩ := mem_propWriteCalls opts doc idv cl hcl
      exact ⟨_, _, _, _, _, rfl⟩
    have hsp0 : (scalarEdgeCalls opts doc idv).countP (isPropCallFor f) = 0 := by
      apply countP_prop_zero_of_edges
      intro cl hcl
      obtain ⟨q, v, _, _, rfl⟩ := mem_scalarEdgeCalls opts doc idv cl hcl
      exact ⟨_, _, _, _, _, rfl⟩
    have hfp0 : ((((listFan opts gen doc idv (presentListBases opts doc) c).1).map
        (fun g => g.2)).flatten).countP (isPropCallFor f) = 0 := by
      apply countP_prop_zero_of_edges
      intro cl hcl
      obtain ⟨b, _, k, tg, rfl⟩ := hfanShape cl hcl
      exact ⟨_, _, _, _, _, rfl⟩
    have hfs0 : ((((listFan opts gen doc idv (presentListBases opts doc) c).1).map
        (fun g => g.2)).flatten).countP (isScalarEdgeCallFor f) = 0 := by
      apply countP_scalar_zero_of_disc
      intro cl hcl
      obtain ⟨b, _, k, tg, rfl⟩ := hfanShape cl hcl
      exact ⟨_, _, _, _, _, _, rfl⟩
    have hd1 : discsFor f (propWriteCalls opts doc idv) = [] := by
      apply discsFor_nil_of_props
      intro cl hcl
      obtain ⟨q, v, _, _, rfl⟩ := mem_propWriteCalls opts doc idv cl hcl
      exact ⟨_, _, _, _, _, rfl⟩
    have hd2 : discsFor f (scalarEdgeCalls opts doc idv) = [] := by
      apply discsFor_nil_of_scalar
      intro cl hcl
      obtain ⟨q, v, _, _, rfl⟩ := mem_scalarEdgeCalls opts doc idv cl hcl
      exact ⟨_, _, _, _, _, rfl⟩
    have hd3 : discsFor f ((((listFan opts gen doc idv
        (presentListBases opts doc) c).1).map (fun g => g.2)).flatten) = [] := by
      apply discsFor_eq_nil
      intro cl hcl b' dsc ten nd tg g hcl2
      obtain ⟨b, hb, k, tg2, rfl⟩ := hfanShape cl hcl
      cases hcl2
      intro hbf
      obtain ⟨ys, hys⟩ := hall _ hb
      rw [hbf, hf] at hys
      cases hys
    refine ⟨?_, ?_, ?_⟩ <;>
      simp [hcalls, List.countP_append, discsFor_append,
        hp0, hs0, hps0, hsp0, hfp0, hfs0, hd1, hd2, hd3]
  · -- one scalar-edge write per declared plain edge present
    intro e he hbr hsome
    rw [hcalls, List.countP_append, List.countP_append]
    have hp0 : (propWriteCalls opts doc idv).countP (isScalarEdgeCallFor e) = 0 := by
      apply countP_scalar_zero_of_props
      intro cl hcl
      obtain ⟨q, v, _, _, rfl⟩ := mem_propWriteCalls opts doc idv cl hcl
      exact ⟨_, _, _, _, _, rfl⟩
    have hf0 : ((((listFan opts gen doc idv (presentListBases opts doc) c).1).map
        (fun g => g.2)).flatten).countP (isScalarEdgeCallFor e) = 0 := by
      apply countP_scalar_zero_of_disc
      intro cl hcl
      obtain ⟨b, _, k, tg, rfl⟩ := hfanShape cl hcl
      exact ⟨_, _, _, _, _, _, rfl⟩
    rw [countP_scalarEdgeCalls]
    have h1 : opts.edges.countP (fun q => q == e && (docGet doc q).isSome)
        = opts.edges.countP (fun q => q == e) := by
      apply countP_congr_mem
      intro a _
      cases ha : (a == e)
      · rfl
      · have : a = e := by simpa using ha
        subst this
        simp [hsome]
    rw [h1, countP_beq_of_nodup _ _ hndE he, hp0, hf0]
  · -- the list fan-out: one edge per element, distinct discriminators
    intro e he hbr xs hdoc
    have hndb : (presentListBases opts doc).Nodup := hbases.filter _
    have hbmem : stripBrackets e ∈ presentListBases opts doc := by
      unfold presentListBases
      refine List.mem_filter.mpr ⟨List.mem_map.mpr ⟨e, List.mem_filter.mpr ⟨he, hbr⟩, rfl⟩, ?_⟩
      rw [hdoc]
      rfl
    obtain ⟨c0, hdiscs⟩ := discsFor_listFan opts gen doc idv
      (presentListBases opts doc) c (stripBrackets e) xs hndb hbmem hdoc hall
    have hd1 : discsFor (stripBrackets e) (propWriteCalls opts doc idv) = [] := by
      apply discsFor_nil_of_props
      intro cl hcl
      obtain ⟨q, v, _, _, rfl⟩ := mem_propWriteCalls opts doc idv cl hcl
      exact ⟨_, _, _, _, _, rfl⟩
    have hd2 : discsFor (stripBrackets e) (scalarEdgeCalls opts doc idv) = [] := by
      apply discsFor_nil_of_scalar
      intro cl hcl
      obtain ⟨q, v, _, _, rfl⟩ := mem_scalarEdgeCalls opts doc idv cl hcl
      exact ⟨_, _, _, _, _, rfl⟩
    rw [hcalls, discsFor_append, discsFor_append, hd1, hd2, List.nil_append,
      List.nil_append, hdiscs]
    constructor
    · rw [List.length_map, List.length_range']
    · exact (List.nodup_range' ..).map hgen

/-- A concrete unique-id generator for the C5 witness. -/
def genR (n : Nat) : String := String.mk (List.replicate n 'c')

theorem genR_injective : Function.Injective genR := by
  intro a b h
  have h2 := congrArg (fun s => s.data.length) h
  simpa [genR] using h2

/-- Schema for the C5 witness: one property, one scalar edge, one list edge. -/
def opts5 : SchemaOpts :=
  { typ := "Test", key := "K", maxGSIK := 0, properties := ["One"],
    edges := ["Edge1", "Likes[]"] }

/-- Doc for the C5 witness: all declared fields present, `Likes` with three
targets. -/
def doc5 : InDoc :=
  [("id", .str "n1"), ("One", .str "1"), ("Edge1", .str "t0"),
   ("Likes", .vlist ["a", "b", "c"])]

/-- C5 witness: the fan-out theorem applied to the concrete schema/doc. -/
theorem update_write_fanout_witness :
    (∀ p ∈ opts5.properties, (docGet doc5 p).isSome = true →
        (updateFn opts5 testStore genR doc5 0).calls.countP (isPropCallFor p) = 1) ∧
    (∀ f : String, docGet doc5 f = none →
        (updateFn opts5 testStore genR doc5 0).calls.countP (isPropCallFor f) = 0 ∧
        (updateFn opts5 testStore genR doc5 0).calls.countP (isScalarEdgeCallFor f) = 0 ∧
        discsFor f (updateFn opts5 testStore genR doc5 0).calls = []) ∧
    (∀ e ∈ opts5.edges, hasBrackets e = false → (docGet doc5 e).isSome = true →
        (updateFn opts5 testStore genR doc5 0).calls.countP (isScalarEdgeCallFor e) = 1) ∧
    (∀ e ∈ opts5.edges, hasBrackets e = true →
        ∀ xs, docGet doc5 (stripBrackets e) = some (Val.vlist xs) →
          (discsFor (stripBrackets e) (updateFn opts5 testStore genR doc5 0).calls).length
              = xs.length ∧
          (discsFor (stripBrackets e) (updateFn opts5 testStore genR doc5 0).calls).Nodup) :=
  update_write_fanout opts5 testStore genR doc5 0 (.str "n1")
    genR_injective (by decide) (by decide) (by decide) (by decide)
    (by
      intro e he hbr v hv
      have he' : e ∈ ["Edge1", "Likes[]"] := he
      fin_cases he'
      · exact absurd hbr (by decide)
      · have h2 : docGet doc5 (stripBrackets "Likes[]")
            = some (Val.vlist ["a", "b", "c"]) := by decide
        rw [h2] at hv
        exact ⟨["a", "b", "c"], (Option.some.inj hv).symm⟩)

/-! ### C4 amended: lemmas about the merged result document -/

theorem outGet_mem (d : OutDoc) (k : String) (u : OutVal)
    (h : outGet d k = some u) : (k, u) ∈ d := by
  induction d with
  | nil => cases h
  | cons q rest ih =>
    obtain ⟨qk, qv⟩ := q
    cases hr : outGet rest k with
    | some w =>
      simp only [outGet, hr] at h
      cases h
      exact List.mem_cons_of_mem _ (ih hr)
    | none =>
      simp only [outGet, hr] at h
      by_cases hq : qk = k
      · rw [if_pos hq] at h
        cases h
        subst hq
        exact List.mem_cons_self _ _
      · rw [if_neg hq] at h
        cases h

theorem outGet_isSome_of_mem (d : OutDoc) (k : String) (u : OutVal)
    (h : (k, u) ∈ d) : (outGet d k).isSome = true := by
  induction d with
  | nil => cases h
  | cons q rest ih =>
    obtain ⟨qk, qv⟩ := q
    cases hr : outGet rest k with
    | some w => simp [outGet, hr]
    | none =>
      rcases List.mem_cons.mp h with hh | hh
      · cases hh
        simp [outGet, hr]
      · have := ih hh
        rw [hr] at this
        cases this

theorem outGet_eq_none (d : OutDoc) (k : String)
    (h : ∀ q ∈ d, q.1 ≠ k) : outGet d k = none := by
  induction d with
  | nil => rfl
  | cons q rest ih =>
    obtain ⟨qk, qv⟩ := q
    have hr := ih (fun q hq => h q (List.mem_cons_of_mem _ hq))
    have hqk : qk ≠ k := h (qk, qv) (List.mem_cons_self _ _)
    simp [outGet, hr, hqk]

theorem outGet_eq_some_of_unique (d : OutDoc) (k : String) (u : OutVal)
    (hmem : (k, u) ∈ d) (huniq : ∀ q ∈ d, q.1 = k → q.2 = u) :
    outGet d k = some u := by
  cases hr : outGet d k with
  | none =>
    have := outGet_isSome_of_mem d k u hmem
    rw [hr] at this
    cases this
  | some w =>
    have hw := outGet_mem d k w hr
    have h2 := huniq (k, w) hw rfl
    dsimp only at h2
    rw [h2]

theorem outGet_append (d1 d2 : OutDoc) (k : String) :
    outGet (d1 ++ d2) k
      = match outGet d2 k with
        | some v => some v
        | none => outGet d1 k := by
  induction d1 with
  | nil =>
    cases h2 : outGet d2 k <;> simp [outGet, h2]
  | cons q rest ih =>
    obtain ⟨qk, qv⟩ := q
    rw [List.cons_append]
    show (match outGet (rest ++ d2) k with
          | some v => some v
          | none => if qk = k then some qv else none) = _
    rw [ih]
    cases outGet d2 k <;> rfl

theorem mem_propEntries (st : Store) (opts : SchemaOpts) (doc : InDoc) (node : Val)
    (key : String) (val : OutVal)
    (echoPT : ∀ t ty n d g, (st.createPropertyItem t ty n d g).Typ = some ty)
    (echoPD : ∀ t ty n d g, (st.createPropertyItem t ty n d g).Data = some d)
    (h : (key, val) ∈ propEntries st (propWriteCalls opts doc node)) :
    ∃ q w, q ∈ opts.properties ∧ docGet doc q = some w ∧ key = q ∧
      val = OutVal.v (some w) := by
  unfold propEntries at h
  rcases List.mem_map.mp h with ⟨cl, hcl, hpair⟩
  obtain ⟨q, w, hq, hw, rfl⟩ := mem_propWriteCalls opts doc node cl hcl
  simp only [respond] at hpair
  rw [echoPT, echoPD] at hpair
  cases hpair
  exact ⟨q, w, hq, hw, rfl, rfl⟩

theorem propEntries_mem_intro (st : Store) (opts : SchemaOpts) (doc : InDoc)
    (node : Val) (q : String) (w : Val)
    (echoPT : ∀ t ty n d g, (st.createPropertyItem t ty n d g).Typ = some ty)
    (echoPD : ∀ t ty n d g, (st.createPropertyItem t ty n d g).Data = some d)
    (hq : q ∈ opts.properties) (hw : docGet doc q = some w) :
    (q, OutVal.v (some w)) ∈ propEntries st (propWriteCalls opts doc node) := by
  unfold propEntries
  apply List.mem_map.mpr
  refine ⟨SCall.createProperty opts.tenant (.n q) node w opts.maxGSIK, ?_, ?_⟩
  · unfold propWriteCalls
    apply List.mem_filterMap.mpr
    exact ⟨q, hq, by rw [hw]; rfl⟩
  · simp only [respond]
    rw [echoPT, echoPD]
    rfl

theorem mem_edgeEntries (st : Store) (opts : SchemaOpts) (doc : InDoc) (node : Val)
    (key : String) (val : OutVal)
    (echoET : ∀ t ty n d g, (st.createEdgeItem t ty n d g).Typ = some ty)
    (h : (key, val) ∈ edgeEntries st (scalarEdgeCalls opts doc node)) :
    ∃ e w, e ∈ opts.edges ∧ docGet doc e = some w ∧
      (key = e ∨ key = "@" ++ e) := by
  unfold edgeEntries at h
  rcases List.mem_flatten.mp h with ⟨pairList, hpl, hpair⟩
  rcases List.mem_map.mp hpl with ⟨cl, hcl, rfl⟩
  obtain ⟨e, w, he, hw, rfl⟩ := mem_scalarEdgeCalls opts doc node cl hcl
  simp only [respond] at hpair
  rw [echoET] at hpair
  rcases List.mem_cons.mp hpair with hp | hp2
  · cases hp
    exact ⟨e, w, he, hw, Or.inl rfl⟩
  · rcases List.mem_cons.mp hp2 with hp | hfalse
    · cases hp
      exact ⟨e, w, he, hw, Or.inr rfl⟩
    · cases hfalse

theorem listGroupEntries_ok (st : Store) (grp : List SCall)
    (h : ∀ cl ∈ grp, ∃ ten b dsc nd tg g, cl = SCall.createEdge ten (.d b dsc) nd tg g)
    (echoET : ∀ t ty n d g, (st.createEdgeItem t ty n d g).Typ = some ty) :
    ∃ o, listGroupEntries st grp = .ok o := by
  induction grp with
  | nil => exact ⟨[], rfl⟩
  | cons cl cls ih =>
    obtain ⟨o, ho⟩ := ih (fun c hc => h c (List.mem_cons_of_mem cl hc))
    obtain ⟨ten, b, dsc, nd, tg, g, rfl⟩ := h cl (List.mem_cons_self cl cls)
    rw [listGroupEntries]
    simp only [respond]
    rw [echoET, ho]
    exact ⟨_, rfl⟩

theorem listEntries_ok_keys (st : Store) (opts : SchemaOpts) (gen : Nat → String)
    (doc : InDoc) (node : Val) (bases : List String) (c : Nat)
    (hall2 : ∀ b ∈ bases, ∃ ys, docGet doc b = some (.vlist ys) ∧ ys ≠ [])
    (echoET : ∀ t ty n d g, (st.createEdgeItem t ty n d g).Typ = some ty) :
    ∃ ld, listEntries st (listFan opts gen doc node bases c).1 = .ok ld ∧
      ∀ q ∈ ld, q.1 ∈ bases := by
  induction bases generalizing c with
  | nil => exact ⟨[], rfl, fun q hq => absurd hq (List.not_mem_nil q)⟩
  | cons b rest ih =>
    obtain ⟨ys, hys, hne⟩ := hall2 b (List.mem_cons_self b rest)
    obtain ⟨ld, hld, hkeys⟩ := ih (c + ys.length)
      (fun b' hb' => hall2 b' (List.mem_cons_of_mem b hb'))
    cases ys with
    | nil => exact absurd rfl hne
    | cons t ts =>
      have hshape : ∀ cl ∈ fanTargets opts gen node b (t :: ts) c,
          ∃ ten b' dsc nd tg g, cl = SCall.createEdge ten (.d b' dsc) nd tg g := by
        intro cl hcl
        obtain ⟨k, tg, rfl⟩ := mem_fanTargets opts gen node b (t :: ts) c cl hcl
        exact ⟨_, _, _, _, _, _, rfl⟩
      obtain ⟨o, ho⟩ := listGroupEntries_ok st _ hshape echoET
      refine ⟨(b, OutVal.obj o) :: ld, ?_, ?_⟩
      · rw [listFan, hys]
        dsimp only
        rw [listEntries]
        dsimp only [fanTargets]
        simp only [respond]
        rw [echoET]
        dsimp only
        rw [fanTargets] at ho
        rw [ho, hld]
        rfl
      · intro q hq
        rcases List.mem_cons.mp hq with hh | hh
        · cases hh
          exact List.mem_cons_self b rest
        · exact List.mem_cons_of_mem b (hkeys q hh)

/-- On a doc with a defined id and well-formed non-empty list-edge fields, a
run of `update` fulfils with the merged document
`{id} ∪ propMap ∪ edgeMap ∪ listEdgeMap`. -/
theorem updateFn_ok (opts : SchemaOpts) (st : Store) (gen : Nat → String)
    (doc : InDoc) (c : Nat) (idv : Val)
    (hid : docGet doc "id" = some idv)
    (hall2 : ∀ b ∈ presentListBases opts doc,
        ∃ ys, docGet doc b = some (.vlist ys) ∧ ys ≠ [])
    (echoET : ∀ t ty n d g, (st.createEdgeItem t ty n d g).Typ = some ty) :
    ∃ les, listEntries st (listFan opts gen doc idv
        (presentListBases opts doc) c).1 = .ok les ∧
      (∀ q ∈ les, q.1 ∈ presentListBases opts doc) ∧
      (updateFn opts st gen doc c).result
        = .ok ((("id", OutVal.v (some idv)) ::
            propEntries st (propWriteCalls opts doc idv) ++
            edgeEntries st (scalarEdgeCalls opts doc idv)) ++ les) := by
  obtain ⟨les, hles, hkeys⟩ := listEntries_ok_keys st opts gen doc idv
    (presentListBases opts doc) c hall2 echoET
  refine ⟨les, hles, hkeys, ?_⟩
  unfold updateFn
  rw [hid]
  dsimp only
  rcases hfan : listFan opts gen doc idv (presentListBases opts doc) c with ⟨groups, err⟩
  have herr : err = none := by
    have h0 := listFan_err_none opts gen doc idv (presentListBases opts doc) c
      (fun b hb => (hall2 b hb).imp (fun ys hy => hy.1))
    rw [hfan] at h0
    exact h0
  subst herr
  rw [hfan] at hles
  dsimp only at hles ⊢
  rw [hles]
  rfl

/-- C4 amended: for every doc with a defined id (and well-formed list-edge
fields), `update` resolves to `{id: doc.id}` merged with the denormalized
property and edge entries produced by the writes; each declared property
present in the doc appears with its supplied value, but caller-supplied
fields that produce no write — the key attribute and any other non-schema
field — are NOT carried into the result. -/
theorem update_result_shape (opts : SchemaOpts) (st : Store) (gen : Nat → String)
    (doc : InDoc) (c : Nat) (idv : Val)
    (hid : docGet doc "id" = some idv)
    (echoPT : ∀ t ty n d g, (st.createPropertyItem t ty n d g).Typ = some ty)
    (echoPD : ∀ t ty n d g, (st.createPropertyItem t ty n d g).Data = some d)
    (echoET : ∀ t ty n d g, (st.createEdgeItem t ty n d g).Typ = some ty)
    (hidP : "id" ∉ opts.properties)
    (hidE : "id" ∉ opts.edges)
    (hidB : ∀ e ∈ opts.edges, hasBrackets e = true → stripBrackets e ≠ "id")
    (hlists2 : ∀ e ∈ opts.edges, hasBrackets e = true →
        ∀ v, docGet doc (stripBrackets e) = some v →
          ∃ xs, v = Val.vlist xs ∧ xs ≠ []) :
    ∃ out, (updateFn opts st gen doc c).result = .ok out ∧
      outGet out "id" = some (OutVal.v (some idv)) ∧
      (∀ p ∈ opts.properties, p ∉ opts.edges →
          (∀ e ∈ opts.edges, hasBrackets e = true → p ≠ stripBrackets e) →
          p.data.head? ≠ some '@' →
          ∀ v, docGet doc p = some v → outGet out p = some (OutVal.v (some v))) ∧
      (∀ k : String, k ≠ "id" → k ∉ opts.properties → k ∉ opts.edges →
          (∀ e ∈ opts.edges, hasBrackets e = true → k ≠ stripBrackets e) →
          k.data.head? ≠ some '@' →
          outGet out k = none) := by
  have hall2 : ∀ b ∈ presentListBases opts doc,
      ∃ ys, docGet doc b = some (.vlist ys) ∧ ys ≠ [] := by
    intro b hb
    unfold presentListBases at hb
    rcases List.mem_filter.mp hb with ⟨hbm, hbp⟩
    rcases List.mem_map.mp hbm with ⟨e, he, rfl⟩
    rcases List.mem_filter.mp he with ⟨heE, heB⟩
    cases hdv : docGet doc (stripBrackets e) with
    | none => rw [hdv] at hbp; cases hbp
    | some v =>
      obtain ⟨xs, rfl, hxs⟩ := hlists2 e heE heB v hdv
      exact ⟨xs, rfl, hxs⟩
  obtain ⟨les, hles, hkeys, hres⟩ :=
    updateFn_ok opts st gen doc c idv hid hall2 echoET
  -- abbreviations for the three merged segments
  refine ⟨_, hres, ?_, ?_, ?_⟩
  · -- the id entry survives the merge
    apply outGet_eq_some_of_unique
    · exact List.mem_append.mpr (Or.inl (List.mem_cons_self _ _))
    · intro q hq hqid
      rcases List.mem_append.mp hq with hq1 | hq2
      · rcases List.mem_cons.mp hq1 with hh | hh
        · rw [hh]
        · rcases List.mem_append.mp hh with hp | he2
          · obtain ⟨q', w, hq', _, hkey, _⟩ :=
              mem_propEntries st opts doc idv q.1 q.2 echoPT echoPD (by
                rw [show (q.1, q.2) = q from rfl]; exact hp)
            rw [hqid] at hkey
            exact absurd (hkey ▸ hq') hidP
          · obtain ⟨e, w, heE, _, hkey⟩ :=
              mem_edgeEntries st opts doc idv q.1 q.2 echoET (by
                rw [show (q.1, q.2) = q from rfl]; exact he2)
            rcases hkey with hk | hk
            · rw [hqid] at hk
              exact absurd (hk ▸ heE) hidE
            · rw [hqid] at hk
              have : ("id" : String).data.head? = some '@' := by rw [hk]; rfl
              exact absurd this (by decide)
      · have hb := hkeys q hq2
        unfold presentListBases at hb
        rcases List.mem_filter.mp hb with ⟨hbm, _⟩
        rcases List.mem_map.mp hbm with ⟨e, he, heq⟩
        rcases List.mem_filter.mp he with ⟨heE, heB⟩
        exact absurd (heq.trans hqid) (hidB e heE heB)
  · -- each declared property present keeps its supplied value
    intro p hp hpE hpB hpAt v hv
    apply outGet_eq_some_of_unique
    · exact List.mem_append.mpr (Or.inl (List.mem_cons_of_mem _
        (List.mem_append.mpr (Or.inl
          (propEntries_mem_intro st opts doc idv p v echoPT echoPD hp hv)))))
    · intro q hq hqp
      rcases List.mem_append.mp hq with hq1 | hq2
      · rcases List.mem_cons.mp hq1 with hh | hh
        · rw [hh] at hqp
          dsimp only at hqp
          subst hqp
          exact absurd hp hidP
        · rcases List.mem_append.mp hh with hpm | hem
          · obtain ⟨q', w, hq', hw', hkey, hval⟩ :=
              mem_propEntries st opts doc idv q.1 q.2 echoPT echoPD (by
                rw [show (q.1, q.2) = q from rfl]; exact hpm)
            rw [hqp] at hkey
            rw [← hkey] at hw'
            rw [hv] at hw'
            cases hw'
            exact hval
          · obtain ⟨e, w, heE, _, hkey⟩ :=
              mem_edgeEntries st opts doc idv q.1 q.2 echoET (by
                rw [show (q.1, q.2) = q from rfl]; exact hem)
            rcases hkey with hk | hk
            · rw [hqp] at hk
              exact absurd (hk ▸ heE) hpE
            · rw [hqp] at hk
              have : p.data.head? = some '@' := by rw [hk]; rfl
              exact absurd this hpAt
      · have hb := hkeys q hq2
        unfold presentListBases at hb
        rcases List.mem_filter.mp hb with ⟨hbm, _⟩
        rcases List.mem_map.mp hbm with ⟨e, he, heq⟩
        rcases List.mem_filter.mp he with ⟨heE, heB⟩
        exact absurd (heq.trans hqp).symm (hpB e heE heB)
  · -- a field that produces no write contributes nothing
    intro k hkid hkP hkE hkB hkAt
    apply outGet_eq_none
    intro q hq
    rcases List.mem_append.mp hq with hq1 | hq2
    · rcases List.mem_cons.mp hq1 with hh | hh
      · rw [hh]
        exact fun hk => hkid hk.symm
      · rcases List.mem_append.mp hh with hpm | hem
        · obtain ⟨q', w, hq', _, hkey, _⟩ :=
            mem_propEntries st opts doc idv q.1 q.2 echoPT echoPD (by
              rw [show (q.1, q.2) = q from rfl]; exact hpm)
          intro hqk
          rw [hqk] at hkey
          exact hkP (hkey ▸ hq')
        · obtain ⟨e, w, heE, _, hkey⟩ :=
            mem_edgeEntries st opts doc idv q.1 q.2 echoET (by
              rw [show (q.1, q.2) = q from rfl]; exact hem)
          intro hqk
          rcases hkey with hk | hk
          · rw [hqk] at hk
            exact hkE (hk ▸ heE)
          · rw [hqk] at hk
            have : k.data.head? = some '@' := by rw [hk]; rfl
            exact hkAt this
    · have hb := hkeys q hq2
      unfold presentListBases at hb
      rcases List.mem_filter.mp hb with ⟨hbm, _⟩
      rcases List.mem_map.mp hbm with ⟨e, he, heq⟩
      rcases List.mem_filter.mp he with ⟨heE, heB⟩
      exact fun hqk => (hkB e heE heB) (heq.trans hqk).symm

/-- C4 witness: the amended result-shape theorem applied to the concrete
schema/doc used for the fan-out witness. -/
theorem update_result_shape_witness :
    ∃ out, (updateFn opts5 testStore genR doc5 0).result = .ok out ∧
      outGet out "id" = some (OutVal.v (some (.str "n1"))) ∧
      (∀ p ∈ opts5.properties, p ∉ opts5.edges →
          (∀ e ∈ opts5.edges, hasBrackets e = true → p ≠ stripBrackets e) →
          p.data.head? ≠ some '@' →
          ∀ v, docGet doc5 p = some v → outGet out p = some (OutVal.v (some v))) ∧
      (∀ k : String, k ≠ "id" → k ∉ opts5.properties → k ∉ opts5.edges →
          (∀ e ∈ opts5.edges, hasBrackets e = true → k ≠ stripBrackets e) →
          k.data.head? ≠ some '@' →
          outGet out k = none) :=
  update_result_shape opts5 testStore genR doc5 0 (.str "n1") (by decide)
    (fun _ _ _ _ _ => rfl) (fun _ _ _ _ _ => rfl) (fun _ _ _ _ _ => rfl)
    (by decide) (by decide)
    (by
      intro e he hbr
      have he' : e ∈ ["Edge1", "Likes[]"] := he
      fin_cases he'
      · exact absurd hbr (by decide)
      · decide)
    (by
      intro e he hbr v hv
      have he' : e ∈ ["Edge1", "Likes[]"] := he
      fin_cases he'
      · exact absurd hbr (by decide)
      · have h2 : docGet doc5 (stripBrackets "Likes[]")
            = some (Val.vlist ["a", "b", "c"]) := by decide
        rw [h2] at hv
        exact ⟨["a", "b", "c"], (Option.some.inj hv).symm, by decide⟩)

end DGS
